import Mathlib

/-!
# Grid_C: the in-memory grid model and the Surfer 6 binary codec

A shallow embedding of `grid.h` / `grid.c`.

Platform model (the one the C code is compiled for): LP64, little-endian,
`short` = 16 bits, `int` = 32 bits, `size_t` = 64 bits, `float` = IEEE-754
binary32, `double` = IEEE-754 binary64, round-to-nearest-even.

* A `double` is its 64-bit pattern (`F64`), a `float` its 32-bit pattern (`F32`).
  Comparisons, subtraction, division, the conversions `int -> double`,
  `double -> float` and `float -> double` are implemented on the bit patterns.
* A `Grid*` that may be `NULL` is an `Option Grid`; `int` fields are `Int`.
* The heap buffer `data` is a `List F64`; reading outside it (undefined behaviour
  in C) yields the filler `F64.zero`, and `Grid.wf` says the buffer has exactly
  `x_size * y_size` elements, as every constructor of the program establishes.
* A file is the list of its bytes (`Nat`s below 256); an open stream is the list of
  bytes not yet consumed.
-/

set_option exponentiation.threshold 5000

namespace GridC

/-! ## Bit patterns -/

/-- An IEEE-754 binary64 value, as its 64-bit pattern. -/
structure F64 where
  bits : Nat
  isLt : bits < 2 ^ 64
deriving DecidableEq

/-- An IEEE-754 binary32 value, as its 32-bit pattern. -/
structure F32 where
  bits : Nat
  isLt : bits < 2 ^ 32
deriving DecidableEq

/-- Floor of the binary logarithm by binary search on the bit length:
`log2go k n acc = acc + floor(log2 n)` for `0 < n < 2 ^ (2 ^ k)`. -/
def log2go : Nat → Nat → Nat → Nat
  | 0, _, acc => acc
  | k + 1, n, acc =>
    if 2 ^ (2 ^ k) ≤ n then log2go k (n / 2 ^ (2 ^ k)) (acc + 2 ^ k) else log2go k n acc

/-- Floor of the binary logarithm of `n`, for `0 < n < 2 ^ 4096`. -/
def ilog2 (n : Nat) : Nat := log2go 12 n 0

/-- Round-to-nearest, ties-to-even, of `n / 2 ^ sh`. -/
def rne (n sh : Nat) : Nat :=
  let q := n / 2 ^ sh
  let r := n % 2 ^ sh
  if 2 ^ sh < 2 * r ∨ (2 * r = 2 ^ sh ∧ q % 2 = 1) then q + 1 else q

namespace F64

/-- The value with the given bit pattern (taken modulo `2 ^ 64`). -/
def ofBits (n : Nat) : F64 := ⟨n % 2 ^ 64, Nat.mod_lt _ (by decide)⟩

/-- Sign bit. -/
def sign (d : F64) : Bool := decide (2 ^ 63 ≤ d.bits)

/-- Biased exponent field (11 bits). -/
def expField (d : F64) : Nat := d.bits / 2 ^ 52 % 2 ^ 11

/-- Fraction field (52 bits). -/
def frac (d : F64) : Nat := d.bits % 2 ^ 52

def isNaN (d : F64) : Prop := d.expField = 2047 ∧ d.frac ≠ 0

instance (d : F64) : Decidable d.isNaN :=
  inferInstanceAs (Decidable (d.expField = 2047 ∧ d.frac ≠ 0))

def isInf (d : F64) : Prop := d.expField = 2047 ∧ d.frac = 0

instance (d : F64) : Decidable d.isInf :=
  inferInstanceAs (Decidable (d.expField = 2047 ∧ d.frac = 0))

def isFinite (d : F64) : Prop := d.expField ≠ 2047

instance (d : F64) : Decidable d.isFinite :=
  inferInstanceAs (Decidable (d.expField ≠ 2047))

/-- Significand of a finite value (with the hidden bit of a normal number). -/
def sig (d : F64) : Nat := if d.expField = 0 then d.frac else 2 ^ 52 + d.frac

/-- Effective biased exponent: a finite value is `sig * 2 ^ (expo - 1075)`. -/
def expo (d : F64) : Nat := max d.expField 1

/-- Magnitude of a finite value in units of `2 ^ (-1074)`, the smallest subnormal. -/
def mag (d : F64) : Nat := d.sig * 2 ^ (d.expo - 1)

/-- The real value of a finite `double`. -/
def toRat (d : F64) : ℚ := (if d.sign then -1 else 1) * ((d.mag : ℚ) / 2 ^ 1074)

/-- Sign-magnitude key: for non-NaN values the IEEE order is the order of the keys
(the magnitude is monotone in the low 63 bits, and both zeros get key 0). -/
def key (d : F64) : Int := if d.sign then -((d.bits % 2 ^ 63 : Nat) : Int) else ((d.bits % 2 ^ 63 : Nat) : Int)

/-- C `a < b` on doubles: false when either is a NaN. -/
def lt (a b : F64) : Prop := ¬a.isNaN ∧ ¬b.isNaN ∧ a.key < b.key

instance (a b : F64) : Decidable (lt a b) :=
  inferInstanceAs (Decidable (¬a.isNaN ∧ ¬b.isNaN ∧ a.key < b.key))

/-- C `a > b` on doubles. -/
def gt (a b : F64) : Prop := lt b a

instance (a b : F64) : Decidable (gt a b) := inferInstanceAs (Decidable (lt b a))

/-- C `a == b` on doubles: false when either is a NaN, true for `+0 == -0`. -/
def eq (a b : F64) : Prop := ¬a.isNaN ∧ ¬b.isNaN ∧ a.key = b.key

instance (a b : F64) : Decidable (eq a b) :=
  inferInstanceAs (Decidable (¬a.isNaN ∧ ¬b.isNaN ∧ a.key = b.key))

/-- C `a != b` on doubles: the negation of `==` (so true when either is a NaN). -/
def ne (a b : F64) : Prop := ¬eq a b

instance (a b : F64) : Decidable (ne a b) := inferInstanceAs (Decidable (¬eq a b))

/-- C `a <= b` on doubles. -/
def le (a b : F64) : Prop := ¬a.isNaN ∧ ¬b.isNaN ∧ a.key ≤ b.key

instance (a b : F64) : Decidable (le a b) :=
  inferInstanceAs (Decidable (¬a.isNaN ∧ ¬b.isNaN ∧ a.key ≤ b.key))

/-- Positive zero, `0.0`. -/
def zero : F64 := ⟨0, by decide⟩

/-- Unary minus: flips the sign bit. -/
def neg (d : F64) : F64 := ofBits (if d.sign then d.bits - 2 ^ 63 else d.bits + 2 ^ 63)

/-- The NaN delivered by an invalid operation (x86-64 "real indefinite"). -/
def defaultNaN : F64 := ⟨0xFFF8000000000000, by decide⟩

/-- A NaN operand made quiet (fraction bit 51 set), as an arithmetic result. -/
def quiet (d : F64) : F64 := ofBits (if d.frac < 2 ^ 51 then d.bits + 2 ^ 51 else d.bits)

/-- Sign bit (as a number) followed by a 63-bit magnitude pattern. -/
def ofSignMag (s : Bool) (m : Nat) : F64 := ofBits ((if s then 2 ^ 63 else 0) + m % 2 ^ 63)

/-- Infinity with the given sign. -/
def inf (s : Bool) : F64 := ofSignMag s 0x7FF0000000000000

/-- The low 63 bits of the double nearest (ties to even) to the positive rational
`num / den`; the pattern of infinity when the rounded value overflows. -/
def roundPos (num den : Nat) : Nat :=
  let e0 : Int := (ilog2 num : Int) - (ilog2 den : Int) - 52
  let q0 := if e0 < 0 then num * 2 ^ (-e0).toNat / den else num / (den * 2 ^ e0.toNat)
  let e1 : Int := if q0 < 2 ^ 52 then e0 - 1 else e0
  let e : Int := max e1 (-1074)
  let n := if e < 0 then num * 2 ^ (-e).toNat else num
  let d := if e < 0 then den else den * 2 ^ e.toNat
  let q := n / d
  let r := n % d
  let q1 := if d < 2 * r ∨ (2 * r = d ∧ q % 2 = 1) then q + 1 else q
  let b := (e + 1074).toNat * 2 ^ 52 + q1
  if 0x7FF0000000000000 ≤ b then 0x7FF0000000000000 else b

/-- The double nearest to the rational `(-1)^s * num / den` (`den > 0`); a zero keeps
the sign `s`. -/
def round (s : Bool) (num den : Nat) : F64 :=
  if num = 0 then ofSignMag s 0 else ofSignMag s (roundPos num den)

/-- Conversion `int -> double` (exact for 32-bit ints). -/
def ofInt (i : Int) : F64 := round (decide (i < 0)) i.natAbs 1

/-- Signed magnitude of a finite value in units of `2 ^ (-1074)`. -/
def toUnits (d : F64) : Int := if d.sign then -(d.mag : Int) else (d.mag : Int)

/-- C `a - b` on doubles (round to nearest even; NaN operands propagate quieted,
first operand first; `inf - inf` is the default NaN). -/
def sub (a b : F64) : F64 :=
  if a.isNaN then quiet a
  else if b.isNaN then quiet b
  else if a.isInf then (if b.isInf ∧ a.sign = b.sign then defaultNaN else a)
  else if b.isInf then neg b
  else
    let r : Int := a.toUnits - b.toUnits
    if r = 0 then ofSignMag (a.sign && !b.sign) 0
    else round (decide (r < 0)) r.natAbs (2 ^ 1074)

/-- C `a / b` on doubles (round to nearest even; `0/0` and `inf/inf` are the default
NaN, a nonzero finite value divided by zero is an infinity). -/
def div (a b : F64) : F64 :=
  if a.isNaN then quiet a
  else if b.isNaN then quiet b
  else if a.isInf then (if b.isInf then defaultNaN else inf (xor a.sign b.sign))
  else if b.isInf then ofSignMag (xor a.sign b.sign) 0
  else if b.mag = 0 then (if a.mag = 0 then defaultNaN else inf (xor a.sign b.sign))
  else round (xor a.sign b.sign) a.mag b.mag

end F64

namespace F32

/-- The value with the given bit pattern (taken modulo `2 ^ 32`). -/
def ofBits (n : Nat) : F32 := ⟨n % 2 ^ 32, Nat.mod_lt _ (by decide)⟩

/-- Sign bit. -/
def sign (f : F32) : Bool := decide (2 ^ 31 ≤ f.bits)

/-- Biased exponent field (8 bits). -/
def expField (f : F32) : Nat := f.bits / 2 ^ 23 % 2 ^ 8

/-- Fraction field (23 bits). -/
def frac (f : F32) : Nat := f.bits % 2 ^ 23

def isNaN (f : F32) : Prop := f.expField = 255 ∧ f.frac ≠ 0

instance (f : F32) : Decidable f.isNaN :=
  inferInstanceAs (Decidable (f.expField = 255 ∧ f.frac ≠ 0))

/-- A signaling NaN: a NaN whose quiet bit (fraction bit 22) is clear. -/
def isSNaN (f : F32) : Prop := f.expField = 255 ∧ f.frac ≠ 0 ∧ f.frac < 2 ^ 22

instance (f : F32) : Decidable f.isSNaN :=
  inferInstanceAs (Decidable (f.expField = 255 ∧ f.frac ≠ 0 ∧ f.frac < 2 ^ 22))

def isFinite (f : F32) : Prop := f.expField ≠ 255

instance (f : F32) : Decidable f.isFinite :=
  inferInstanceAs (Decidable (f.expField ≠ 255))

/-- Significand of a finite value (with the hidden bit of a normal number). -/
def sig (f : F32) : Nat := if f.expField = 0 then f.frac else 2 ^ 23 + f.frac

/-- Effective biased exponent: a finite value is `sig * 2 ^ (expo - 150)`. -/
def expo (f : F32) : Nat := max f.expField 1

/-- Magnitude of a finite value in units of `2 ^ (-1074)` (a float is a multiple of
`2 ^ (-149) = 2 ^ 925` units). -/
def mag (f : F32) : Nat := f.sig * 2 ^ (f.expo - 1 + 925)

/-- The real value of a finite `float`. -/
def toRat (f : F32) : ℚ := (if f.sign then -1 else 1) * ((f.mag : ℚ) / 2 ^ 1074)

/-- Unit in the last place of a finite `float`: the gap between consecutive floats
of its binade, `2 ^ (expo - 150)`. -/
def ulp (f : F32) : ℚ := (2 ^ (f.expo - 1 + 925) : ℚ) / 2 ^ 1074

/-- Conversion `float -> double` (C: `grid->data[i] = temp_fl`). Exact on finite values
and infinities; a NaN keeps sign and payload and is made quiet (IEEE-754
convertFormat, x86-64 `cvtss2sd`). -/
def widen (f : F32) : F64 :=
  let s := if f.sign then 2 ^ 63 else 0
  if f.expField = 255 then
    if f.frac = 0 then F64.ofBits (s + 2047 * 2 ^ 52)
    else F64.ofBits (s + 2047 * 2 ^ 52 + (if f.frac < 2 ^ 22 then f.frac + 2 ^ 22 else f.frac) * 2 ^ 29)
  else if f.expField = 0 then
    if f.frac = 0 then F64.ofBits s
    else
      let k := ilog2 f.frac
      F64.ofBits (s + (k + 874) * 2 ^ 52 + (f.frac * 2 ^ (52 - k) - 2 ^ 52))
  else F64.ofBits (s + (f.expField + 896) * 2 ^ 52 + f.frac * 2 ^ 29)

end F32

namespace F64

/-- Conversion `double -> float` (C: `(float)grid->data[i]`), round to nearest even.
Magnitudes that round beyond the largest float become an infinity; a NaN keeps its
sign and the top 23 payload bits and is made quiet (x86-64 `cvtsd2ss`). -/
def narrow (d : F64) : F32 :=
  let s := if d.sign then 2 ^ 31 else 0
  if d.expField = 2047 then
    if d.frac = 0 then F32.ofBits (s + 255 * 2 ^ 23)
    else
      let m := d.frac / 2 ^ 29
      F32.ofBits (s + 255 * 2 ^ 23 + (if m < 2 ^ 22 then m + 2 ^ 22 else m))
  else
    let sh := if 897 ≤ d.expo then 29 else 926 - d.expo
    let base := if 897 ≤ d.expo then (d.expo - 897) * 2 ^ 23 else 0
    let m := base + rne d.sig sh
    if 255 * 2 ^ 23 ≤ m then F32.ofBits (s + 255 * 2 ^ 23) else F32.ofBits (s + m)

end F64

/-! ## grid.h -/

/-- The macro `GRID_DEFAULT_BLANK_VALUE`: the double nearest to the decimal literal
`170141000918782798866653488190622531584.000000`. -/
def GRID_DEFAULT_BLANK_VALUE : F64 := F64.round false 170141000918782798866653488190622531584 1

/-- The compiler constant `__DBL_MAX__`, the largest finite double. -/
def DBL_MAX : F64 := ⟨0x7FEFFFFFFFFFFFFF, by decide⟩

/-- The macro `GRID_DEFAULT_Z_MIN`, `__DBL_MAX__`. -/
def GRID_DEFAULT_Z_MIN : F64 := DBL_MAX

/-- The macro `GRID_DEFAULT_Z_MAX`, `-__DBL_MAX__`. -/
def GRID_DEFAULT_Z_MAX : F64 := F64.neg DBL_MAX

/-- The C struct `Grid`. -/
structure Grid where
  x_min : F64
  x_max : F64
  y_min : F64
  y_max : F64
  x_size : Int
  y_size : Int
  x_step : F64
  y_step : F64
  z_min : F64
  z_max : F64
  blank_value : F64
  data : List F64
deriving DecidableEq

namespace Grid

/-- The element `grid->data[i]`; the filler `F64.zero` stands for a read outside the
buffer (undefined behaviour in C, excluded by `Grid.wf`). -/
def cell (g : Grid) (i : Nat) : F64 := g.data.getD i F64.zero

/-- The number of iterations of `for (i = 0; i < x_size * y_size; i++)`. -/
def count (g : Grid) : Nat := (g.x_size * g.y_size).toNat

/-- A well-formed grid: the sizes are C `int`s, their product does not overflow `int`,
and the buffer holds exactly `x_size * y_size` doubles (what the `malloc` calls of
`create_example_grid` and `read_surfer_grid_6bin` allocate). -/
def wf (g : Grid) : Prop :=
  -2 ^ 31 ≤ g.x_size ∧ g.x_size < 2 ^ 31 ∧ -2 ^ 31 ≤ g.y_size ∧ g.y_size < 2 ^ 31 ∧
  g.x_size * g.y_size < 2 ^ 31 ∧ (g.data.length : Int) = g.x_size * g.y_size

instance (g : Grid) : Decidable g.wf :=
  inferInstanceAs (Decidable (-2 ^ 31 ≤ g.x_size ∧ g.x_size < 2 ^ 31 ∧ -2 ^ 31 ≤ g.y_size ∧
    g.y_size < 2 ^ 31 ∧ g.x_size * g.y_size < 2 ^ 31 ∧ (g.data.length : Int) = g.x_size * g.y_size))

end Grid

/-! ## grid.c: the grid model -/

/-- One iteration of the scan loop of `calculate_z_min_max` on the pair
`(z_min, z_max)`, for the cell value `d`. -/
def z_step (blank : F64) (z : F64 × F64) (d : F64) : F64 × F64 :=
  if F64.ne d blank then
    (if F64.lt d z.1 then d else z.1, if F64.gt d z.2 then d else z.2)
  else z

/-- The scan loop of `calculate_z_min_max`: cells `0 .. x_size * y_size - 1` in order. -/
def z_scan (g : Grid) : F64 × F64 :=
  (List.range g.count).foldl (fun z i => z_step g.blank_value z (g.cell i))
    (GRID_DEFAULT_Z_MIN, GRID_DEFAULT_Z_MAX)

/-- The function `calculate_z_min_max` (which has no NULL check). -/
def calculate_z_min_max (g : Grid) : Grid :=
  let z := z_scan g
  if F64.eq z.1 DBL_MAX ∨ F64.eq z.2 (F64.neg DBL_MAX) then
    { g with z_min := g.blank_value, z_max := g.blank_value }
  else
    { g with z_min := z.1, z_max := z.2 }

/-- The function `create_example_grid`, both `malloc` calls succeeding. -/
def create_example_grid : Grid :=
  let x_min := F64.ofInt 0
  let x_max := F64.ofInt 10
  let y_min := F64.ofInt 0
  let y_max := F64.ofInt 10
  let x_size : Int := 11
  let y_size : Int := 11
  calculate_z_min_max
    { x_min := x_min, x_max := x_max, y_min := y_min, y_max := y_max,
      x_size := x_size, y_size := y_size,
      x_step := F64.div (F64.sub x_max x_min) (F64.ofInt (x_size - 1)),
      y_step := F64.div (F64.sub y_max y_min) (F64.ofInt (y_size - 1)),
      z_min := F64.ofInt 0, z_max := F64.ofInt 1,
      blank_value := GRID_DEFAULT_BLANK_VALUE,
      data := (List.range (x_size * y_size).toNat).map (fun (i : Nat) => F64.ofInt (i : Int)) }

/-- The bounds test of `get_xy_value` and `set_xy_value`. -/
def out_of_bounds (g : Grid) (x y : Int) : Prop :=
  x < 0 ∨ x ≥ g.x_size ∨ y < 0 ∨ y ≥ g.y_size

instance (g : Grid) (x y : Int) : Decidable (out_of_bounds g x y) :=
  inferInstanceAs (Decidable (x < 0 ∨ x ≥ g.x_size ∨ y < 0 ∨ y ≥ g.y_size))

/-- The function `get_xy_value`; `none` is the NULL pointer. The diagnostics written
to `stderr` are not modelled. -/
def get_xy_value (grid : Option Grid) (x y : Int) : F64 :=
  match grid with
  | none => GRID_DEFAULT_BLANK_VALUE
  | some g =>
    if out_of_bounds g x y then g.blank_value
    else g.cell (y * g.x_size + x).toNat

/-- The function `set_xy_value`: the grid behind the pointer after the call. -/
def set_xy_value (grid : Option Grid) (x y : Int) (value : F64) : Option Grid :=
  match grid with
  | none => none
  | some g =>
    if out_of_bounds g x y then some g
    else some { g with data := g.data.set (y * g.x_size + x).toNat value }

/-- The function `set_grid_x_min`. -/
def set_grid_x_min (grid : Option Grid) (x_min : F64) : Option Grid :=
  match grid with
  | none => none
  | some g =>
    some { g with x_min := x_min,
                  x_step := F64.div (F64.sub g.x_max x_min) (F64.ofInt (g.x_size - 1)) }

/-- The function `set_grid_x_max`. -/
def set_grid_x_max (grid : Option Grid) (x_max : F64) : Option Grid :=
  match grid with
  | none => none
  | some g =>
    some { g with x_max := x_max,
                  x_step := F64.div (F64.sub x_max g.x_min) (F64.ofInt (g.x_size - 1)) }

/-- The function `set_grid_y_min`. -/
def set_grid_y_min (grid : Option Grid) (y_min : F64) : Option Grid :=
  match grid with
  | none => none
  | some g =>
    some { g with y_min := y_min,
                  y_step := F64.div (F64.sub g.y_max y_min) (F64.ofInt (g.y_size - 1)) }

/-- The function `set_grid_y_max`. -/
def set_grid_y_max (grid : Option Grid) (y_max : F64) : Option Grid :=
  match grid with
  | none => none
  | some g =>
    some { g with y_max := y_max,
                  y_step := F64.div (F64.sub y_max g.y_min) (F64.ofInt (g.y_size - 1)) }

/-! ## grid.c: the Surfer 6 binary codec -/

/-- The `n` bytes of the little-endian object representation of `v`. -/
def le_bytes : Nat → Nat → List Nat
  | 0, _ => []
  | n + 1, v => v % 256 :: le_bytes n (v / 256)

/-- The number whose little-endian representation is the byte list. -/
def le_val : List Nat → Nat
  | [] => 0
  | b :: bs => b + 256 * le_val bs

/-- A byte stream: every element is a byte. -/
def is_bytes (s : List Nat) : Prop := ∀ b ∈ s, b < 256

instance (s : List Nat) : Decidable (is_bytes s) :=
  inferInstanceAs (Decidable (∀ b ∈ s, b < 256))

/-- The call `fread(&obj, size, 1, file)` on an object of `size` bytes whose current
content is `old`: the bytes still available (at most `size`) overwrite the front of
the object, the rest of the object keeps its old content (a short read leaves it
as it was, the return value of `fread` is ignored by the program), and the stream
advances past what was read. Returns the new content of the object and the rest of the
stream. -/
def fread (size : Nat) (old : Nat) (file : List Nat) : Nat × List Nat :=
  let got := file.take size
  (le_val (got ++ (le_bytes size old).drop got.length), file.drop size)

/-- Conversion `short -> int` of the 16-bit pattern `v` (two's complement). -/
def short_to_int (v : Nat) : Int := if v % 2 ^ 16 < 2 ^ 15 then (v % 2 ^ 16 : Nat) else (v % 2 ^ 16 : Nat) - 2 ^ 16

/-- Conversion `int -> short`: the 16-bit pattern kept by `short n_x = grid->x_size`
(the value wraps modulo `2 ^ 16`). -/
def int_to_short (i : Int) : Nat := (i % 2 ^ 16).toNat

/-- The size argument of `malloc(x_size * y_size * sizeof(double))`: the `int` product
converted to the 64-bit `size_t` and multiplied by 8, modulo `2 ^ 64`. -/
def malloc_request (n : Int) : Nat := ((n % 2 ^ 64).toNat * 8) % 2 ^ 64

/-- Whether `malloc` returns a buffer: a request above `PTRDIFF_MAX` fails (so does the
request computed from a negative product); exhaustion of memory is not modelled, and
`malloc(0)` returns a buffer. -/
def malloc_ok (request : Nat) : Prop := request < 2 ^ 63

instance (request : Nat) : Decidable (malloc_ok request) :=
  inferInstanceAs (Decidable (request < 2 ^ 63))

/-- The content of the memory that `read_surfer_grid_6bin` reads into before anything
was stored there: the local `temp_sh` and `temp_fl`, and the six fields of the fresh
`malloc` block that `fread` fills. -/
structure Uninit where
  temp_sh : Nat
  temp_fl : F32
  x_min : F64
  x_max : F64
  y_min : F64
  y_max : F64
  z_min : F64
  z_max : F64

/-- The cell loop of `read_surfer_grid_6bin`: `n` times, `fread` into `temp_fl` and
store it widened. -/
def read_cells : Nat → F32 → List Nat → List F64
  | 0, _, _ => []
  | n + 1, temp_fl, file =>
    let r := fread 4 temp_fl.bits file
    let fl := F32.ofBits r.1
    fl.widen :: read_cells n fl r.2

/-- The function `read_surfer_grid_6bin`. The argument `fopen` is what `fopen(filename, "rb")`
gives: `none` when the file cannot be opened, else its bytes. The result `none` is the
NULL pointer. The `malloc` of the `Grid` struct itself is taken to succeed; the one of the
cell buffer follows `malloc_ok`. -/
def read_surfer_grid_6bin (u : Uninit) (fopen : Option (List Nat)) : Option Grid :=
  match fopen with
  | none => none
  | some content =>
    let file := content.drop 4
    let r := fread 2 u.temp_sh file
    let x_size := short_to_int r.1
    let r2 := fread 2 r.1 r.2
    let y_size := short_to_int r2.1
    let rx_min := fread 8 u.x_min.bits r2.2
    let rx_max := fread 8 u.x_max.bits rx_min.2
    let ry_min := fread 8 u.y_min.bits rx_max.2
    let ry_max := fread 8 u.y_max.bits ry_min.2
    let rz_min := fread 8 u.z_min.bits ry_max.2
    let rz_max := fread 8 u.z_max.bits rz_min.2
    let x_min := F64.ofBits rx_min.1
    let x_max := F64.ofBits rx_max.1
    let y_min := F64.ofBits ry_min.1
    let y_max := F64.ofBits ry_max.1
    if malloc_ok (malloc_request (x_size * y_size)) then
      some { x_min := x_min, x_max := x_max, y_min := y_min, y_max := y_max,
             x_size := x_size, y_size := y_size,
             x_step := F64.div (F64.sub x_max x_min) (F64.ofInt (x_size - 1)),
             y_step := F64.div (F64.sub y_max y_min) (F64.ofInt (y_size - 1)),
             z_min := F64.ofBits rz_min.1, z_max := F64.ofBits rz_max.1,
             blank_value := GRID_DEFAULT_BLANK_VALUE,
             data := read_cells (x_size * y_size).toNat u.temp_fl rz_max.2 }
    else none

/-- The 56 header bytes that `write_surfer_grid_6bin` emits: the tag `"DSBB"`, the two
sizes as `short`s, the six doubles. -/
def write_header (g : Grid) : List Nat :=
  [68, 83, 66, 66] ++ le_bytes 2 (int_to_short g.x_size) ++ le_bytes 2 (int_to_short g.y_size)
    ++ le_bytes 8 g.x_min.bits ++ le_bytes 8 g.x_max.bits
    ++ le_bytes 8 g.y_min.bits ++ le_bytes 8 g.y_max.bits
    ++ le_bytes 8 g.z_min.bits ++ le_bytes 8 g.z_max.bits

/-- The cell loop of `write_surfer_grid_6bin`, from index `i`, `n` iterations: each
cell narrowed to `float` and written as 4 bytes. -/
def write_cells (g : Grid) : Nat → Nat → List Nat
  | _, 0 => []
  | i, n + 1 => le_bytes 4 (g.cell i).narrow.bits ++ write_cells g (i + 1) n

/-- The function `write_surfer_grid_6bin`: the content of the file after the call.
`fopen_ok` says whether `fopen(filename, "wb")` succeeds; when it does not, nothing is
written (`none`). -/
def write_surfer_grid_6bin (fopen_ok : Bool) (g : Grid) : Option (List Nat) :=
  if fopen_ok then some (write_header g ++ write_cells g 0 g.count) else none

/-! ## Predicates and projections used by the statements -/

/-- The values of `x_size` and `y_size` after the two `fread(&temp_sh, ...)` calls of
`read_surfer_grid_6bin` on a file of the given content. -/
def read_sizes (u : Uninit) (content : List Nat) : Int × Int :=
  let r := fread 2 u.temp_sh (content.drop 4)
  let r2 := fread 2 r.1 r.2
  (short_to_int r.1, short_to_int r2.1)

/-- Step consistency of a grid: each step field holds what the C expression
`(max - min) / (size - 1)` gives, in double arithmetic, on the grid's bounds and size. -/
def step_consistent (g : Grid) : Prop :=
  g.x_step = F64.div (F64.sub g.x_max g.x_min) (F64.ofInt (g.x_size - 1)) ∧
  g.y_step = F64.div (F64.sub g.y_max g.y_min) (F64.ofInt (g.y_size - 1))

instance (g : Grid) : Decidable (step_consistent g) :=
  inferInstanceAs (Decidable (
    g.x_step = F64.div (F64.sub g.x_max g.x_min) (F64.ofInt (g.x_size - 1)) ∧
    g.y_step = F64.div (F64.sub g.y_max g.y_min) (F64.ofInt (g.y_size - 1))))

/-! ## Sample data for the concrete checks -/

/-- A 2 x 2 grid over the unit square whose four cells all hold `DBL_MAX`. -/
def dbl_max_grid : Grid :=
  { x_min := F64.ofInt 0, x_max := F64.ofInt 1, y_min := F64.ofInt 0, y_max := F64.ofInt 1,
    x_size := 2, y_size := 2, x_step := F64.ofInt 1, y_step := F64.ofInt 1,
    z_min := F64.ofInt 0, z_max := F64.ofInt 1,
    blank_value := GRID_DEFAULT_BLANK_VALUE,
    data := [DBL_MAX, DBL_MAX, DBL_MAX, DBL_MAX] }

/-- Uninitialised memory that happens to be all zero bytes. -/
def uninit_zero : Uninit :=
  { temp_sh := 0, temp_fl := F32.ofBits 0, x_min := F64.zero, x_max := F64.zero,
    y_min := F64.zero, y_max := F64.zero, z_min := F64.zero, z_max := F64.zero }

/-- A well-formed 2 x 2 file over the unit square (z range 0 .. 1) whose first cell is the
signaling NaN `0x7F800001`; the other cells are `0.0f`, `1.0f`, `0.0f`. -/
def snan_stream : List Nat :=
  [68, 83, 66, 66, 2, 0, 2, 0,
   0, 0, 0, 0, 0, 0, 0, 0,  0, 0, 0, 0, 0, 0, 240, 63,
   0, 0, 0, 0, 0, 0, 0, 0,  0, 0, 0, 0, 0, 0, 240, 63,
   0, 0, 0, 0, 0, 0, 0, 0,  0, 0, 0, 0, 0, 0, 240, 63,
   1, 0, 128, 127,  0, 0, 0, 0,  0, 0, 128, 63,  0, 0, 0, 0]

/-- A 3 x 2 grid over `[0, 2] x [0, 1]` with the cells `0.1, 1, 2, 3, 4, 5`, the z range
`0.1 .. 5` and a `blank_value` (`DBL_MAX`) that is not the default one. -/
def sample_grid : Grid :=
  { x_min := F64.ofInt 0, x_max := F64.ofInt 2, y_min := F64.ofInt 0, y_max := F64.ofInt 1,
    x_size := 3, y_size := 2, x_step := F64.ofInt 1, y_step := F64.ofInt 1,
    z_min := F64.round false 1 10, z_max := F64.ofInt 5,
    blank_value := DBL_MAX,
    data := [F64.round false 1 10, F64.ofInt 1, F64.ofInt 2, F64.ofInt 3, F64.ofInt 4,
      F64.ofInt 5] }

/-- A well-formed 2 x 2 file like `snan_stream`, with the quiet NaN `0x7FC00001` as first
cell. -/
def qnan_stream : List Nat :=
  [68, 83, 66, 66, 2, 0, 2, 0,
   0, 0, 0, 0, 0, 0, 0, 0,  0, 0, 0, 0, 0, 0, 240, 63,
   0, 0, 0, 0, 0, 0, 0, 0,  0, 0, 0, 0, 0, 0, 240, 63,
   0, 0, 0, 0, 0, 0, 0, 0,  0, 0, 0, 0, 0, 0, 240, 63,
   1, 0, 192, 127,  0, 0, 0, 0,  0, 0, 128, 63,  0, 0, 0, 0]

/-- A file cut off after 10 bytes: the tag, the sizes 2 and 2, and two bytes of `x_min`. -/
def truncated_stream : List Nat := [68, 83, 66, 66, 2, 0, 2, 0, 0, 0]

/-- The file `qnan_stream` with its first four bytes replaced by `0, 1, 2, 3`. -/
def retagged_stream : List Nat := [0, 1, 2, 3] ++ qnan_stream.drop 4

/-- A 40000 x 2 grid: like `sample_grid`, with 80000 cells equal to `0.0`. -/
def wide_grid : Grid :=
  { sample_grid with x_size := 40000, y_size := 2, data := List.replicate 80000 F64.zero }

/-- A 40000 x 40000 grid: like `sample_grid`, with 1600000000 cells equal to `0.0`. -/
def square_grid : Grid :=
  { sample_grid with
    x_size := 40000, y_size := 40000, data := List.replicate 1600000000 F64.zero }

/-- A grid like `sample_grid` with the default `blank_value` and two blank cells. -/
def blank_grid : Grid :=
  { sample_grid with
    blank_value := GRID_DEFAULT_BLANK_VALUE,
    data := [F64.ofInt 1, GRID_DEFAULT_BLANK_VALUE, F64.ofInt 2, F64.ofInt 3,
      GRID_DEFAULT_BLANK_VALUE, F64.ofInt 5] }

/-! ## Theorems -/

theorem le_bytes_length (n v : Nat) : (le_bytes n v).length = n := by
  induction n generalizing v with
  | zero => rfl
  | succ n ih => simp [le_bytes, ih]

theorem le_val_le_bytes (n v : Nat) : le_val (le_bytes n v) = v % 256 ^ n := by
  induction n generalizing v with
  | zero => simp [le_bytes, le_val, Nat.mod_one]
  | succ n ih =>
    simp only [le_bytes, le_val, ih]
    rw [pow_succ, Nat.mul_comm (256 ^ n) 256, Nat.mod_mul]

theorem is_bytes_le_bytes (n v : Nat) : is_bytes (le_bytes n v) := by
  induction n generalizing v with
  | zero => intro b hb; simp [le_bytes] at hb
  | succ n ih =>
    intro b hb
    simp only [le_bytes, List.mem_cons] at hb
    rcases hb with hb | hb
    · omega
    · exact ih _ b hb

theorem le_bytes_le_val (bs : List Nat) (h : is_bytes bs) :
    le_bytes bs.length (le_val bs) = bs := by
  induction bs with
  | nil => rfl
  | cons b bs ih =>
    have hb : b < 256 := h b (List.mem_cons_self _ _)
    have hbs : is_bytes bs := fun c hc => h c (List.mem_cons_of_mem _ hc)
    simp only [List.length_cons, le_bytes, le_val]
    have h1 : (b + 256 * le_val bs) % 256 = b := by omega
    have h2 : (b + 256 * le_val bs) / 256 = le_val bs := by omega
    rw [h1, h2, ih hbs]

theorem le_val_lt (bs : List Nat) (h : is_bytes bs) : le_val bs < 256 ^ bs.length := by
  induction bs with
  | nil => simp [le_val]
  | cons b bs ih =>
    have hb : b < 256 := h b (List.mem_cons_self _ _)
    have hbs : is_bytes bs := fun c hc => h c (List.mem_cons_of_mem _ hc)
    have := ih hbs
    simp only [List.length_cons, le_val, pow_succ]
    omega

theorem is_bytes_append {a b : List Nat} : is_bytes (a ++ b) ↔ is_bytes a ∧ is_bytes b := by
  unfold is_bytes
  simp only [List.mem_append]
  constructor
  · intro h; exact ⟨fun x hx => h x (Or.inl hx), fun x hx => h x (Or.inr hx)⟩
  · rintro ⟨h1, h2⟩ x (hx | hx)
    · exact h1 x hx
    · exact h2 x hx

theorem is_bytes_take (s : List Nat) (n : Nat) (h : is_bytes s) : is_bytes (s.take n) :=
  fun b hb => h b (List.mem_of_mem_take hb)

theorem is_bytes_drop (s : List Nat) (n : Nat) (h : is_bytes s) : is_bytes (s.drop n) :=
  fun b hb => h b (List.mem_of_mem_drop hb)

theorem fread_full (n old : Nat) (file : List Nat) (h : n ≤ file.length) :
    fread n old file = (le_val (file.take n), file.drop n) := by
  unfold fread
  have hl : (List.take n file).length = n := by simp [h]
  simp only [hl]
  rw [List.drop_of_length_le (by rw [le_bytes_length]), List.append_nil]

theorem fread_le_bytes (n old v : Nat) (rest : List Nat) :
    fread n old (le_bytes n v ++ rest) = (v % 256 ^ n, rest) := by
  rw [fread_full _ _ _ (by simp [le_bytes_length])]
  rw [List.take_left' (le_bytes_length n v), List.drop_left' (le_bytes_length n v),
    le_val_le_bytes]

theorem short_to_int_int_to_short (i : Int) (h1 : -2 ^ 15 ≤ i) (h2 : i < 2 ^ 15) :
    short_to_int (int_to_short i) = i := by
  unfold short_to_int int_to_short
  split <;> omega

theorem int_to_short_short_to_int (v : Nat) : int_to_short (short_to_int v) = v % 2 ^ 16 := by
  unfold short_to_int int_to_short
  split <;> omega

theorem F64.ext_bits {a b : F64} (h : a.bits = b.bits) : a = b := by
  cases a; cases b; simp only [F64.mk.injEq]; exact h

theorem F32.eq_of_bits {a b : F32} (h : a.bits = b.bits) : a = b := by
  cases a; cases b; simp only [F32.mk.injEq]; exact h

theorem F64.ofBits_bits (d : F64) : F64.ofBits d.bits = d :=
  F64.ext_bits (Nat.mod_eq_of_lt d.isLt)

theorem F32.ofBits_self (f : F32) : F32.ofBits f.bits = f :=
  F32.eq_of_bits (Nat.mod_eq_of_lt f.isLt)

theorem F64.ofBits_mod (d : F64) : F64.ofBits (d.bits % 256 ^ 8) = d := by
  have h : d.bits % 256 ^ 8 = d.bits := Nat.mod_eq_of_lt (by have := d.isLt; omega)
  rw [h, F64.ofBits_bits]

theorem F32.ofBits_mod4 (f : F32) : F32.ofBits (f.bits % 256 ^ 4) = f := by
  have h : f.bits % 256 ^ 4 = f.bits := Nat.mod_eq_of_lt (by have := f.isLt; omega)
  rw [h, F32.ofBits_self]

theorem log2go_spec (k : Nat) : ∀ (n acc : Nat), 0 < n → n < 2 ^ (2 ^ k) →
    ∃ r, log2go k n acc = acc + r ∧ 2 ^ r ≤ n ∧ n < 2 ^ (r + 1) := by
  induction k with
  | zero =>
    intro n acc h0 h1
    refine ⟨0, rfl, ?_, ?_⟩ <;> simp at h1 ⊢ <;> omega
  | succ k ih =>
    intro n acc h0 h1
    have hP : 0 < 2 ^ (2 ^ k) := Nat.pow_pos (by decide)
    have hsq : 2 ^ (2 ^ (k + 1)) = 2 ^ (2 ^ k) * 2 ^ (2 ^ k) := by
      rw [← pow_add, pow_succ]; congr 1; omega
    unfold log2go
    by_cases hc : 2 ^ (2 ^ k) ≤ n
    · rw [if_pos hc]
      have hq0 : 0 < n / 2 ^ (2 ^ k) := Nat.div_pos hc hP
      have hq1 : n / 2 ^ (2 ^ k) < 2 ^ (2 ^ k) := by
        rw [Nat.div_lt_iff_lt_mul hP]; rw [hsq] at h1; exact h1
      obtain ⟨r, hr, hlo, hhi⟩ := ih (n / 2 ^ (2 ^ k)) (acc + 2 ^ k) hq0 hq1
      refine ⟨2 ^ k + r, by rw [hr]; omega, ?_, ?_⟩
      · rw [pow_add]
        calc 2 ^ (2 ^ k) * 2 ^ r ≤ 2 ^ (2 ^ k) * (n / 2 ^ (2 ^ k)) := Nat.mul_le_mul_left _ hlo
          _ ≤ n := Nat.mul_div_le n _
      · have h3 : n < (n / 2 ^ (2 ^ k) + 1) * 2 ^ (2 ^ k) := by
          have := Nat.div_add_mod n (2 ^ (2 ^ k))
          have := Nat.mod_lt n hP
          nlinarith
        have h4 : (n / 2 ^ (2 ^ k) + 1) * 2 ^ (2 ^ k) ≤ 2 ^ (r + 1) * 2 ^ (2 ^ k) :=
          Nat.mul_le_mul_right _ hhi
        have h5 : 2 ^ (2 ^ k + r + 1) = 2 ^ (r + 1) * 2 ^ (2 ^ k) := by
          rw [← pow_add]; congr 1; omega
        rw [h5]; omega
    · rw [if_neg hc]
      exact ih n acc h0 (by omega)

theorem ilog2_spec (n : Nat) (h0 : 0 < n) (h1 : n < 2 ^ 4096) :
    2 ^ ilog2 n ≤ n ∧ n < 2 ^ (ilog2 n + 1) := by
  obtain ⟨r, hr, hlo, hhi⟩ := log2go_spec 12 n 0 h0 (by simpa using h1)
  have : ilog2 n = r := by unfold ilog2; rw [hr]; omega
  rw [this]; exact ⟨hlo, hhi⟩

theorem ilog2_lt (n b : Nat) (h0 : 0 < n) (h1 : n < 2 ^ b) (hb : b ≤ 4096) : ilog2 n < b := by
  have h2 : n < 2 ^ 4096 := lt_of_lt_of_le h1 (Nat.pow_le_pow_right (by decide) hb)
  have h := (ilog2_spec n h0 h2).1
  by_contra hc
  have : 2 ^ b ≤ 2 ^ ilog2 n := Nat.pow_le_pow_right (by decide) (by omega)
  omega

theorem F64.bits_eq (d : F64) :
    d.bits = (if d.sign then 2 ^ 63 else 0) + d.expField * 2 ^ 52 + d.frac := by
  have := d.isLt
  unfold F64.sign F64.expField F64.frac
  by_cases h : 2 ^ 63 ≤ d.bits
  · simp only [h, decide_True, if_true]; omega
  · simp only [h, decide_False]; simp only [Bool.false_eq_true, if_false]; omega

theorem F32.bits_split (f : F32) :
    f.bits = (if f.sign then 2 ^ 31 else 0) + f.expField * 2 ^ 23 + f.frac := by
  have := f.isLt
  unfold F32.sign F32.expField F32.frac
  by_cases h : 2 ^ 31 ≤ f.bits
  · simp only [h, decide_True, if_true]; omega
  · simp only [h, decide_False]; simp only [Bool.false_eq_true, if_false]; omega

theorem F64.expField_lt (d : F64) : d.expField < 2048 := by
  unfold F64.expField; omega

theorem F64.frac_lt (d : F64) : d.frac < 2 ^ 52 := by
  unfold F64.frac; omega

theorem F32.expField_lt_256 (f : F32) : f.expField < 256 := by
  unfold F32.expField; omega

theorem F32.frac_lt_pow (f : F32) : f.frac < 2 ^ 23 := by
  unfold F32.frac; omega

theorem F64.fields_ofBits (sb : Bool) (E M : Nat) (hE : E < 2048) (hM : M < 2 ^ 52) :
    (F64.ofBits ((if sb then 2 ^ 63 else 0) + E * 2 ^ 52 + M)).sign = sb ∧
    (F64.ofBits ((if sb then 2 ^ 63 else 0) + E * 2 ^ 52 + M)).expField = E ∧
    (F64.ofBits ((if sb then 2 ^ 63 else 0) + E * 2 ^ 52 + M)).frac = M := by
  unfold F64.sign F64.expField F64.frac F64.ofBits
  cases sb
  · simp only [Bool.false_eq_true, if_false]
    refine ⟨?_, ?_, ?_⟩
    · rw [decide_eq_false_iff_not]; omega
    · omega
    · omega
  · simp only [if_true]
    refine ⟨?_, ?_, ?_⟩
    · rw [decide_eq_true_iff]; omega
    · omega
    · omega

theorem F32.fields_of_bits (sb : Bool) (E M : Nat) (hE : E < 256) (hM : M < 2 ^ 23) :
    (F32.ofBits ((if sb then 2 ^ 31 else 0) + E * 2 ^ 23 + M)).sign = sb ∧
    (F32.ofBits ((if sb then 2 ^ 31 else 0) + E * 2 ^ 23 + M)).expField = E ∧
    (F32.ofBits ((if sb then 2 ^ 31 else 0) + E * 2 ^ 23 + M)).frac = M := by
  unfold F32.sign F32.expField F32.frac F32.ofBits
  cases sb
  · simp only [Bool.false_eq_true, if_false]
    refine ⟨?_, ?_, ?_⟩
    · rw [decide_eq_false_iff_not]; omega
    · omega
    · omega
  · simp only [if_true]
    refine ⟨?_, ?_, ?_⟩
    · rw [decide_eq_true_iff]; omega
    · omega
    · omega

theorem F64.low_bits_eq (d : F64) : d.bits % 2 ^ 63 = d.expField * 2 ^ 52 + d.frac := by
  have := d.isLt
  unfold F64.expField F64.frac
  omega

theorem F64.mag_strict_mono (a b : F64)
    (h : a.bits % 2 ^ 63 < b.bits % 2 ^ 63) : a.mag < b.mag := by
  rw [a.low_bits_eq, b.low_bits_eq] at h
  have hfa := a.frac_lt
  have hfb := b.frac_lt
  have hEb := b.expField_lt
  unfold F64.mag F64.sig F64.expo
  by_cases he : a.expField = b.expField
  · rw [he]
    have hP : 0 < 2 ^ (max b.expField 1 - 1) := Nat.pow_pos (by norm_num)
    apply Nat.mul_lt_mul_of_pos_right _ hP
    split <;> omega
  · have hlt : a.expField < b.expField := by omega
    have hb0 : ¬(b.expField = 0) := by omega
    rw [if_neg hb0]
    by_cases ha0 : a.expField = 0
    · rw [if_pos ha0, ha0]
      have hP : 2 ^ (max 0 1 - 1) ≤ 2 ^ (max b.expField 1 - 1) :=
        Nat.pow_le_pow_right (by norm_num) (by omega)
      have h1 : a.frac * 2 ^ (max 0 1 - 1) < (2 ^ 52 + b.frac) * 2 ^ (max 0 1 - 1) :=
        Nat.mul_lt_mul_of_pos_right (by omega) (Nat.pow_pos (by norm_num))
      exact lt_of_lt_of_le h1 (Nat.mul_le_mul_left _ hP)
    · rw [if_neg ha0]
      have e1 : max a.expField 1 - 1 = a.expField - 1 := by omega
      have e2 : max b.expField 1 - 1 = (b.expField - 1 - a.expField) + 1 + (a.expField - 1) := by
        omega
      rw [e1, e2, pow_add, pow_add]
      have hQ : 0 < 2 ^ (a.expField - 1) := Nat.pow_pos (by norm_num)
      have hR : 1 ≤ 2 ^ (b.expField - 1 - a.expField) := Nat.pow_pos (by norm_num)
      have h1 : (2 ^ 52 + a.frac) * 2 ^ (a.expField - 1) < 2 ^ 53 * 2 ^ (a.expField - 1) :=
        Nat.mul_lt_mul_of_pos_right (by omega) hQ
      have h2 : 2 ^ 53 ≤ (2 ^ 52 + b.frac) * (2 ^ (b.expField - 1 - a.expField) * 2 ^ 1) := by
        have : 2 ^ 52 * (1 * 2 ^ 1) ≤ (2 ^ 52 + b.frac) * (2 ^ (b.expField - 1 - a.expField) * 2 ^ 1) :=
          Nat.mul_le_mul (by omega) (Nat.mul_le_mul_right _ hR)
        omega
      calc (2 ^ 52 + a.frac) * 2 ^ (a.expField - 1) < 2 ^ 53 * 2 ^ (a.expField - 1) := h1
        _ ≤ (2 ^ 52 + b.frac) * (2 ^ (b.expField - 1 - a.expField) * 2 ^ 1) * 2 ^ (a.expField - 1) :=
          Nat.mul_le_mul_right _ h2
        _ = (2 ^ 52 + b.frac) * (2 ^ (b.expField - 1 - a.expField) * 2 ^ 1 * 2 ^ (a.expField - 1)) := by
          ring

/-- The magnitude of a double is strictly monotone in its low 63 bits. -/
theorem F64.mag_lt_iff (a b : F64) :
    a.mag < b.mag ↔ a.bits % 2 ^ 63 < b.bits % 2 ^ 63 := by
  constructor
  · intro h
    by_contra hc
    rcases Nat.lt_or_ge (b.bits % 2 ^ 63) (a.bits % 2 ^ 63) with h2 | h2
    · have := b.mag_strict_mono a h2
      omega
    · have heq : a.bits % 2 ^ 63 = b.bits % 2 ^ 63 := by omega
      rw [a.low_bits_eq, b.low_bits_eq] at heq
      have hfa := a.frac_lt
      have hfb := b.frac_lt
      have he : a.expField = b.expField := by omega
      have hf : a.frac = b.frac := by omega
      unfold F64.mag F64.sig F64.expo at h
      rw [he, hf] at h
      exact lt_irrefl _ h
  · exact a.mag_strict_mono b

/-- The order used for C `<` on doubles is the order of the real values: for finite `a`
and `b`, `F64.lt a b` holds exactly when `a.toRat < b.toRat`. -/
theorem F64.lt_iff_toRat_lt (a b : F64) (ha : a.isFinite) (hb : b.isFinite) :
    F64.lt a b ↔ a.toRat < b.toRat := by
  have hna : ¬a.isNaN := fun h => ha h.1
  have hnb : ¬b.isNaN := fun h => hb h.1
  have hc : (0 : ℚ) < 2 ^ 1074 := by positivity
  have hab := a.mag_lt_iff b
  have hba := b.mag_lt_iff a
  have h0a := F64.zero.mag_lt_iff a
  have h0b := F64.zero.mag_lt_iff b
  have hz1 : F64.zero.mag = 0 := by decide
  have hz2 : F64.zero.bits % 2 ^ 63 = 0 := by decide
  rw [hz1, hz2] at h0a h0b
  have qa : (0 : ℚ) ≤ (a.mag : ℚ) / 2 ^ 1074 := div_nonneg (Nat.cast_nonneg _) (le_of_lt hc)
  have qb : (0 : ℚ) ≤ (b.mag : ℚ) / 2 ^ 1074 := div_nonneg (Nat.cast_nonneg _) (le_of_lt hc)
  have hdiv : ∀ x y : Nat, ((x : ℚ) / 2 ^ 1074 < (y : ℚ) / 2 ^ 1074 ↔ x < y) := by
    intro x y
    rw [div_lt_div_iff_of_pos_right hc]
    exact Nat.cast_lt
  have hpos : ∀ x : Nat, ((0 : ℚ) < (x : ℚ) / 2 ^ 1074 ↔ 0 < x) := by
    intro x
    have h := hdiv 0 x
    simp only [Nat.cast_zero, zero_div] at h
    exact h
  unfold F64.lt F64.toRat F64.key
  simp only [hna, hnb, not_false_eq_true, true_and]
  cases hsa : a.sign <;> cases hsb : b.sign
  · simp only [Bool.false_eq_true, if_false, one_mul, Nat.cast_lt, hdiv]
    exact hab.symm
  · simp only [Bool.false_eq_true, if_false, if_true, one_mul, neg_one_mul]
    constructor
    · intro h; omega
    · intro h; linarith
  · simp only [Bool.false_eq_true, if_false, if_true, one_mul, neg_one_mul]
    constructor
    · intro h
      have : 0 < a.bits % 2 ^ 63 ∨ 0 < b.bits % 2 ^ 63 := by omega
      rcases this with h1 | h1
      · have := (hpos a.mag).mpr (h0a.mpr h1)
        linarith
      · have := (hpos b.mag).mpr (h0b.mpr h1)
        linarith
    · intro h
      have : 0 < a.mag ∨ 0 < b.mag := by
        by_contra hc2
        have e1 : a.mag = 0 := by omega
        have e2 : b.mag = 0 := by omega
        rw [e1, e2] at h
        simp at h
      rcases this with h1 | h1
      · have := h0a.mp h1
        omega
      · have := h0b.mp h1
        omega
  · simp only [if_true, neg_one_mul, neg_lt_neg_iff, hdiv]
    constructor
    · intro h
      exact hba.mpr (by omega)
    · intro h
      have := hba.mp h
      omega

theorem out_of_bounds_iff (g : Grid) (x y : Int) :
    out_of_bounds g x y ↔ ¬(0 ≤ x ∧ x < g.x_size ∧ 0 ≤ y ∧ y < g.y_size) := by
  unfold out_of_bounds
  omega

theorem index_lt_of_in_range (g : Grid) (x y : Int) (hwf : g.wf)
    (hx : 0 ≤ x) (hx2 : x < g.x_size) (hy : 0 ≤ y) (hy2 : y < g.y_size) :
    (y * g.x_size + x).toNat < g.data.length := by
  obtain ⟨_, _, _, _, _, hlen⟩ := hwf
  have h1 : y * g.x_size + x < g.x_size * g.y_size := by nlinarith
  have h2 : 0 ≤ y * g.x_size + x := by nlinarith
  omega

/-- C1: reading a cell back after writing it, at in-range coordinates, returns the value
written, bit for bit. -/
theorem get_xy_value_set_xy_value (g : Grid) (x y : Int) (v : F64) (hwf : g.wf)
    (hx : 0 ≤ x) (hx2 : x < g.x_size) (hy : 0 ≤ y) (hy2 : y < g.y_size) :
    ∃ g2, set_xy_value (some g) x y v = some g2 ∧ get_xy_value (some g2) x y = v := by
  have hin : ¬out_of_bounds g x y := by
    rw [out_of_bounds_iff]; exact fun h => h ⟨hx, hx2, hy, hy2⟩
  have hidx := index_lt_of_in_range g x y hwf hx hx2 hy hy2
  refine ⟨{ g with data := g.data.set (y * g.x_size + x).toNat v }, ?_, ?_⟩
  · simp [set_xy_value, hin]
  · have hin2 : ¬out_of_bounds { g with data := g.data.set (y * g.x_size + x).toNat v } x y := hin
    simp only [get_xy_value, hin2, if_false, Grid.cell]
    rw [List.getD_eq_getElem _ _ (by simpa using hidx)]
    simp

theorem calculate_z_min_max_frame (g : Grid) :
    (calculate_z_min_max g).x_min = g.x_min ∧ (calculate_z_min_max g).x_max = g.x_max ∧
    (calculate_z_min_max g).y_min = g.y_min ∧ (calculate_z_min_max g).y_max = g.y_max ∧
    (calculate_z_min_max g).x_size = g.x_size ∧ (calculate_z_min_max g).y_size = g.y_size ∧
    (calculate_z_min_max g).x_step = g.x_step ∧ (calculate_z_min_max g).y_step = g.y_step ∧
    (calculate_z_min_max g).blank_value = g.blank_value ∧
    (calculate_z_min_max g).data = g.data := by
  unfold calculate_z_min_max
  simp only []
  split <;> simp

theorem create_example_grid_x_size : create_example_grid.x_size = 11 := by
  unfold create_example_grid
  simp only []
  rw [(calculate_z_min_max_frame _).2.2.2.2.1]

theorem create_example_grid_y_size : create_example_grid.y_size = 11 := by
  unfold create_example_grid
  simp only []
  rw [(calculate_z_min_max_frame _).2.2.2.2.2.1]

theorem create_example_grid_data :
    create_example_grid.data = (List.range 121).map (fun (i : Nat) => F64.ofInt (i : Int)) := by
  unfold create_example_grid
  simp only []
  rw [(calculate_z_min_max_frame _).2.2.2.2.2.2.2.2.2]
  rfl

theorem create_example_grid_wf : create_example_grid.wf := by
  unfold Grid.wf
  rw [create_example_grid_x_size, create_example_grid_y_size, create_example_grid_data,
    List.length_map, List.length_range]
  decide

/-- The call of `main`: `set_xy_value(example_grid, 5, 5, 99.0)` then
`get_xy_value(example_grid, 5, 5)`. -/
theorem get_xy_value_set_xy_value_witness :
    ∃ g2, set_xy_value (some create_example_grid) 5 5 (F64.ofInt 99) = some g2 ∧
      get_xy_value (some g2) 5 5 = F64.ofInt 99 :=
  get_xy_value_set_xy_value create_example_grid 5 5 (F64.ofInt 99) create_example_grid_wf
    (by decide) (by rw [create_example_grid_x_size]; decide) (by decide)
    (by rw [create_example_grid_y_size]; decide)

/-- C9: at out-of-range coordinates `get_xy_value` returns the grid's own `blank_value`
field, whatever the data array holds (the result is the same for every buffer). -/
theorem get_xy_value_out_of_range (g : Grid) (x y : Int)
    (h : x < 0 ∨ x ≥ g.x_size ∨ y < 0 ∨ y ≥ g.y_size) :
    get_xy_value (some g) x y = g.blank_value ∧
      ∀ data2 : List F64, get_xy_value (some { g with data := data2 }) x y = g.blank_value := by
  have hout : out_of_bounds g x y := h
  refine ⟨by simp [get_xy_value, hout], fun data2 => ?_⟩
  have hout2 : out_of_bounds { g with data := data2 } x y := h
  simp [get_xy_value, hout2]

/-- C10: at out-of-range coordinates `set_xy_value` leaves the grid as it was, data and
metadata. -/
theorem set_xy_value_out_of_range (g : Grid) (x y : Int) (v : F64)
    (h : x < 0 ∨ x ≥ g.x_size ∨ y < 0 ∨ y ≥ g.y_size) :
    set_xy_value (some g) x y v = some g := by
  have hout : out_of_bounds g x y := h
  simp [set_xy_value, hout]

theorem cell_mem (g : Grid) (hwf : g.wf) (i : Nat) (hi : i < g.count) : g.cell i ∈ g.data := by
  obtain ⟨_, _, _, _, _, hlen⟩ := hwf
  have hi2 : i < g.data.length := by unfold Grid.count at hi; omega
  unfold Grid.cell
  rw [List.getD_eq_getElem _ _ hi2]
  exact List.getElem_mem _

theorem foldl_range_fixed {α : Type} (f : α → Nat → α) (a : α) (n : Nat)
    (h : ∀ i, i < n → f a i = a) : (List.range n).foldl f a = a := by
  induction n with
  | zero => rfl
  | succ n ih =>
    rw [List.range_succ, List.foldl_append, ih (fun i hi => h i (by omega))]
    simpa using h n (by omega)

theorem z_step_blank (blank d : F64) (z : F64 × F64) (h : F64.eq d blank ∨ d = blank) :
    z_step blank z d = z := by
  unfold z_step
  by_cases hne : F64.ne d blank
  · have hnan : d.isNaN := by
      rcases h with h | h
      · exact absurd h hne
      · subst h
        by_contra hn
        exact hne ⟨hn, hn, rfl⟩
    have h1 : ¬F64.lt d z.1 := fun hl => hl.1 hnan
    have h2 : ¬F64.gt d z.2 := fun hl => hl.2.1 hnan
    simp [hne, h1, h2]
  · simp [hne]

/-- C3: when every cell equals `blank_value` (by C `==`, or bit for bit),
`calculate_z_min_max` leaves both `z_min` and `z_max` holding `blank_value`, so that
`z_min == blank_value` and `z_max == blank_value` (as C comparisons, unless
`blank_value` is a NaN, which compares unequal to itself). -/
theorem calculate_z_min_max_all_blank (g : Grid) (hwf : g.wf)
    (h : ∀ c ∈ g.data, F64.eq c g.blank_value ∨ c = g.blank_value) :
    (calculate_z_min_max g).z_min = g.blank_value ∧
    (calculate_z_min_max g).z_max = g.blank_value ∧
    (¬g.blank_value.isNaN →
      F64.eq (calculate_z_min_max g).z_min g.blank_value ∧
      F64.eq (calculate_z_min_max g).z_max g.blank_value) := by
  have hscan : z_scan g = (GRID_DEFAULT_Z_MIN, GRID_DEFAULT_Z_MAX) := by
    unfold z_scan
    exact foldl_range_fixed _ _ _ (fun i hi => z_step_blank _ _ _ (h _ (cell_mem g hwf i hi)))
  have hmax : F64.eq GRID_DEFAULT_Z_MIN DBL_MAX := by decide
  have h1 : (calculate_z_min_max g).z_min = g.blank_value := by
    unfold calculate_z_min_max
    simp only [hscan]
    rw [if_pos (Or.inl hmax)]
  have h2 : (calculate_z_min_max g).z_max = g.blank_value := by
    unfold calculate_z_min_max
    simp only [hscan]
    rw [if_pos (Or.inl hmax)]
  refine ⟨h1, h2, fun hb => ?_⟩
  rw [h1, h2]
  exact ⟨⟨hb, hb, rfl⟩, ⟨hb, hb, rfl⟩⟩

theorem calculate_z_min_max_all_blank_witness :
    (calculate_z_min_max { dbl_max_grid with blank_value := DBL_MAX }).z_min = DBL_MAX ∧
    (calculate_z_min_max { dbl_max_grid with blank_value := DBL_MAX }).z_max = DBL_MAX ∧
    (¬DBL_MAX.isNaN →
      F64.eq (calculate_z_min_max { dbl_max_grid with blank_value := DBL_MAX }).z_min DBL_MAX ∧
      F64.eq (calculate_z_min_max { dbl_max_grid with blank_value := DBL_MAX }).z_max DBL_MAX) :=
  calculate_z_min_max_all_blank { dbl_max_grid with blank_value := DBL_MAX } (by decide)
    (by decide)

/-- C2 (the code misses it): in `dbl_max_grid` every cell is `DBL_MAX` and differs from
`blank_value`, so the minimum and the maximum of the non-blank cells are `DBL_MAX`; yet
`calculate_z_min_max` leaves `z_min` and `z_max` equal to `blank_value`, which is not
`DBL_MAX`. -/
theorem calculate_z_min_max_dbl_max_cells :
    dbl_max_grid.wf ∧
    (∀ c ∈ dbl_max_grid.data, c = DBL_MAX ∧ F64.ne c dbl_max_grid.blank_value) ∧
    (calculate_z_min_max dbl_max_grid).z_min = dbl_max_grid.blank_value ∧
    (calculate_z_min_max dbl_max_grid).z_max = dbl_max_grid.blank_value ∧
    ¬F64.eq dbl_max_grid.blank_value DBL_MAX := by
  decide

theorem map_getD_range (l : List F64) (d : F64) :
    (List.range l.length).map (fun i => l.getD i d) = l := by
  apply List.ext_getElem
  · simp
  · intro i h1 h2
    simp only [List.getElem_map, List.getElem_range]
    exact List.getD_eq_getElem _ _ h2

/-- On a well-formed grid the scan loop is a left fold of `z_step` over the data array. -/
theorem z_scan_eq_foldl (g : Grid) (hwf : g.wf) :
    z_scan g = g.data.foldl (z_step g.blank_value) (GRID_DEFAULT_Z_MIN, GRID_DEFAULT_Z_MAX) := by
  have hlen := hwf.2.2.2.2.2
  have hcount : g.count = g.data.length := by unfold Grid.count; omega
  unfold z_scan
  rw [hcount]
  have h := List.foldl_map (fun i => g.data.getD i F64.zero) (z_step g.blank_value)
    (List.range g.data.length) (GRID_DEFAULT_Z_MIN, GRID_DEFAULT_Z_MAX)
  rw [map_getD_range] at h
  rw [h]
  rfl

/-- Invariant of the scan for the running minimum: it is not a NaN, it is at most the
seed, at most every non-blank cell seen so far, and it is the seed or one of those cells. -/
theorem z_scan_min_invariant (blank : F64) (l : List F64) (hn : ∀ c ∈ l, ¬c.isNaN) :
    ∀ (z : F64 × F64) (seen : List F64), ¬z.1.isNaN →
      (∀ c ∈ seen, F64.ne c blank → z.1.key ≤ c.key) →
      (z.1 = GRID_DEFAULT_Z_MIN ∨ (z.1 ∈ seen ∧ F64.ne z.1 blank)) →
      z.1.key ≤ GRID_DEFAULT_Z_MIN.key →
      ¬(l.foldl (z_step blank) z).1.isNaN ∧
      (∀ c ∈ seen ++ l, F64.ne c blank → (l.foldl (z_step blank) z).1.key ≤ c.key) ∧
      ((l.foldl (z_step blank) z).1 = GRID_DEFAULT_Z_MIN ∨
        ((l.foldl (z_step blank) z).1 ∈ seen ++ l ∧ F64.ne (l.foldl (z_step blank) z).1 blank)) ∧
      (l.foldl (z_step blank) z).1.key ≤ GRID_DEFAULT_Z_MIN.key := by
  induction l with
  | nil =>
    intro z seen h1 h2 h3 h4
    simpa using ⟨h1, h2, h3, h4⟩
  | cons d l ih =>
    intro z seen h1 h2 h3 h4
    have hd : ¬d.isNaN := hn d (List.mem_cons_self _ _)
    have hl : ∀ c ∈ l, ¬c.isNaN := fun c hc => hn c (List.mem_cons_of_mem _ hc)
    have happ : seen ++ d :: l = (seen ++ [d]) ++ l := by simp
    rw [List.foldl_cons, happ]
    by_cases hne : F64.ne d blank
    · by_cases hlt : F64.lt d z.1
      · have hz : (z_step blank z d).1 = d := by simp [z_step, hne, hlt]
        refine ih hl (z_step blank z d) (seen ++ [d]) (by rw [hz]; exact hd) ?_ ?_ ?_
        · intro c hc hcne
          rw [hz]
          rcases List.mem_append.mp hc with hc | hc
          · exact le_trans (le_of_lt hlt.2.2) (h2 c hc hcne)
          · simp only [List.mem_singleton] at hc
            rw [hc]
        · rw [hz]
          exact Or.inr ⟨by simp, hne⟩
        · rw [hz]
          exact le_trans (le_of_lt hlt.2.2) h4
      · have hz : (z_step blank z d).1 = z.1 := by simp [z_step, hne, hlt]
        have hge : z.1.key ≤ d.key := by
          by_contra hc
          exact hlt ⟨hd, h1, by omega⟩
        refine ih hl (z_step blank z d) (seen ++ [d]) (by rw [hz]; exact h1) ?_ ?_ ?_
        · intro c hc hcne
          rw [hz]
          rcases List.mem_append.mp hc with hc | hc
          · exact h2 c hc hcne
          · simp only [List.mem_singleton] at hc
            rw [hc]; exact hge
        · rw [hz]
          rcases h3 with h3 | h3
          · exact Or.inl h3
          · exact Or.inr ⟨List.mem_append_left _ h3.1, h3.2⟩
        · rw [hz]; exact h4
    · have hz : z_step blank z d = z := by simp [z_step, hne]
      refine ih hl (z_step blank z d) (seen ++ [d]) (by rw [hz]; exact h1) ?_ ?_ ?_
      · intro c hc hcne
        rw [hz]
        rcases List.mem_append.mp hc with hc | hc
        · exact h2 c hc hcne
        · simp only [List.mem_singleton] at hc
          rw [hc] at hcne
          exact absurd hcne hne
      · rw [hz]
        rcases h3 with h3 | h3
        · exact Or.inl h3
        · exact Or.inr ⟨List.mem_append_left _ h3.1, h3.2⟩
      · rw [hz]; exact h4

/-- Invariant of the scan for the running maximum, mirror of `z_scan_min_invariant`. -/
theorem z_scan_max_invariant (blank : F64) (l : List F64) (hn : ∀ c ∈ l, ¬c.isNaN) :
    ∀ (z : F64 × F64) (seen : List F64), ¬z.2.isNaN →
      (∀ c ∈ seen, F64.ne c blank → c.key ≤ z.2.key) →
      (z.2 = GRID_DEFAULT_Z_MAX ∨ (z.2 ∈ seen ∧ F64.ne z.2 blank)) →
      GRID_DEFAULT_Z_MAX.key ≤ z.2.key →
      ¬(l.foldl (z_step blank) z).2.isNaN ∧
      (∀ c ∈ seen ++ l, F64.ne c blank → c.key ≤ (l.foldl (z_step blank) z).2.key) ∧
      ((l.foldl (z_step blank) z).2 = GRID_DEFAULT_Z_MAX ∨
        ((l.foldl (z_step blank) z).2 ∈ seen ++ l ∧ F64.ne (l.foldl (z_step blank) z).2 blank)) ∧
      GRID_DEFAULT_Z_MAX.key ≤ (l.foldl (z_step blank) z).2.key := by
  induction l with
  | nil =>
    intro z seen h1 h2 h3 h4
    simpa using ⟨h1, h2, h3, h4⟩
  | cons d l ih =>
    intro z seen h1 h2 h3 h4
    have hd : ¬d.isNaN := hn d (List.mem_cons_self _ _)
    have hl : ∀ c ∈ l, ¬c.isNaN := fun c hc => hn c (List.mem_cons_of_mem _ hc)
    have happ : seen ++ d :: l = (seen ++ [d]) ++ l := by simp
    rw [List.foldl_cons, happ]
    by_cases hne : F64.ne d blank
    · by_cases hgt : F64.gt d z.2
      · have hz : (z_step blank z d).2 = d := by simp [z_step, hne, hgt]
        have hgt2 : z.2.key < d.key := hgt.2.2
        refine ih hl (z_step blank z d) (seen ++ [d]) (by rw [hz]; exact hd) ?_ ?_ ?_
        · intro c hc hcne
          rw [hz]
          rcases List.mem_append.mp hc with hc | hc
          · exact le_trans (h2 c hc hcne) (le_of_lt hgt2)
          · simp only [List.mem_singleton] at hc
            rw [hc]
        · rw [hz]
          exact Or.inr ⟨by simp, hne⟩
        · rw [hz]
          exact le_trans h4 (le_of_lt hgt2)
      · have hz : (z_step blank z d).2 = z.2 := by simp [z_step, hne, hgt]
        have hge : d.key ≤ z.2.key := by
          by_contra hc
          exact hgt ⟨h1, hd, by omega⟩
        refine ih hl (z_step blank z d) (seen ++ [d]) (by rw [hz]; exact h1) ?_ ?_ ?_
        · intro c hc hcne
          rw [hz]
          rcases List.mem_append.mp hc with hc | hc
          · exact h2 c hc hcne
          · simp only [List.mem_singleton] at hc
            rw [hc]; exact hge
        · rw [hz]
          rcases h3 with h3 | h3
          · exact Or.inl h3
          · exact Or.inr ⟨List.mem_append_left _ h3.1, h3.2⟩
        · rw [hz]; exact h4
    · have hz : z_step blank z d = z := by simp [z_step, hne]
      refine ih hl (z_step blank z d) (seen ++ [d]) (by rw [hz]; exact h1) ?_ ?_ ?_
      · intro c hc hcne
        rw [hz]
        rcases List.mem_append.mp hc with hc | hc
        · exact h2 c hc hcne
        · simp only [List.mem_singleton] at hc
          rw [hc] at hcne
          exact absurd hcne hne
      · rw [hz]
        rcases h3 with h3 | h3
        · exact Or.inl h3
        · exact Or.inr ⟨List.mem_append_left _ h3.1, h3.2⟩
      · rw [hz]; exact h4

/-- Where `calculate_z_min_max` is right: on a well-formed grid without NaN cells that has
a non-blank cell below `DBL_MAX` and a non-blank cell above `-DBL_MAX`, `z_min` is a
non-blank cell that is `<=` every non-blank cell and `z_max` is a non-blank cell that is
`>=` every non-blank cell. -/
theorem calculate_z_min_max_min_max (g : Grid) (hwf : g.wf) (hn : ∀ c ∈ g.data, ¬c.isNaN)
    (hlo : ∃ c ∈ g.data, F64.ne c g.blank_value ∧ F64.lt c DBL_MAX)
    (hhi : ∃ c ∈ g.data, F64.ne c g.blank_value ∧ F64.gt c (F64.neg DBL_MAX)) :
    ((calculate_z_min_max g).z_min ∈ g.data ∧
      F64.ne (calculate_z_min_max g).z_min g.blank_value ∧
      ∀ c ∈ g.data, F64.ne c g.blank_value → F64.le (calculate_z_min_max g).z_min c) ∧
    ((calculate_z_min_max g).z_max ∈ g.data ∧
      F64.ne (calculate_z_min_max g).z_max g.blank_value ∧
      ∀ c ∈ g.data, F64.ne c g.blank_value → F64.le c (calculate_z_min_max g).z_max) := by
  have hseed1 : ¬GRID_DEFAULT_Z_MIN.isNaN := by decide
  have hseed2 : ¬GRID_DEFAULT_Z_MAX.isNaN := by decide
  obtain ⟨m1, m2, m3, _⟩ := z_scan_min_invariant g.blank_value g.data hn
    (GRID_DEFAULT_Z_MIN, GRID_DEFAULT_Z_MAX) [] hseed1 (by simp) (Or.inl rfl) (le_refl _)
  obtain ⟨n1, n2, n3, _⟩ := z_scan_max_invariant g.blank_value g.data hn
    (GRID_DEFAULT_Z_MIN, GRID_DEFAULT_Z_MAX) [] hseed2 (by simp) (Or.inl rfl) (le_refl _)
  rw [← z_scan_eq_foldl g hwf] at m1 m2 m3 n1 n2 n3
  simp only [List.nil_append] at m2 m3 n2 n3
  obtain ⟨a, ha, hane, halt⟩ := hlo
  obtain ⟨b, hb, hbne, hbgt⟩ := hhi
  have hmin_lt : (z_scan g).1.key < DBL_MAX.key := lt_of_le_of_lt (m2 a ha hane) halt.2.2
  have hmax_gt : (F64.neg DBL_MAX).key < (z_scan g).2.key :=
    lt_of_lt_of_le hbgt.2.2 (n2 b hb hbne)
  have hc1 : ¬F64.eq (z_scan g).1 DBL_MAX := fun h => by have := h.2.2; omega
  have hc2 : ¬F64.eq (z_scan g).2 (F64.neg DBL_MAX) := fun h => by have := h.2.2; omega
  have hmin : (calculate_z_min_max g).z_min = (z_scan g).1 := by
    unfold calculate_z_min_max
    simp only []
    rw [if_neg (by rintro (h | h); exact hc1 h; exact hc2 h)]
  have hmax : (calculate_z_min_max g).z_max = (z_scan g).2 := by
    unfold calculate_z_min_max
    simp only []
    rw [if_neg (by rintro (h | h); exact hc1 h; exact hc2 h)]
  rw [hmin, hmax]
  have hm3 : (z_scan g).1 ∈ g.data ∧ F64.ne (z_scan g).1 g.blank_value := by
    rcases m3 with h | h
    · rw [h] at hmin_lt
      exact absurd hmin_lt (lt_irrefl _)
    · exact h
  have hn3 : (z_scan g).2 ∈ g.data ∧ F64.ne (z_scan g).2 g.blank_value := by
    rcases n3 with h | h
    · rw [h] at hmax_gt
      exact absurd hmax_gt (lt_irrefl _)
    · exact h
  exact ⟨⟨hm3.1, hm3.2, fun c hc hcne => ⟨m1, hn c hc, m2 c hc hcne⟩⟩,
    ⟨hn3.1, hn3.2, fun c hc hcne => ⟨hn c hc, n1, n2 c hc hcne⟩⟩⟩

theorem read_cells_write_cells (g : Grid) (n i : Nat) (fl : F32) (rest : List Nat) :
    read_cells n fl (write_cells g i n ++ rest) =
      (List.range' i n).map (fun j => (g.cell j).narrow.widen) := by
  induction n generalizing i fl with
  | zero => rfl
  | succ n ih =>
    simp only [write_cells, read_cells, List.append_assoc, fread_le_bytes, F32.ofBits_mod4,
      List.range'_succ, List.map_cons, ih]

theorem malloc_ok_of_nonneg (n : Int) (h0 : 0 ≤ n) (h1 : n < 2 ^ 31) :
    malloc_ok (malloc_request n) := by
  unfold malloc_ok malloc_request
  omega

/-- What `read_surfer_grid_6bin` returns on the file written by `write_surfer_grid_6bin`,
when the sizes fit a `short` and their product is not negative. -/
theorem read_write (u : Uninit) (g : Grid)
    (hx1 : -2 ^ 15 ≤ g.x_size) (hx2 : g.x_size < 2 ^ 15)
    (hy1 : -2 ^ 15 ≤ g.y_size) (hy2 : g.y_size < 2 ^ 15) (hn : 0 ≤ g.x_size * g.y_size) :
    read_surfer_grid_6bin u (write_surfer_grid_6bin true g) =
      some { x_min := g.x_min, x_max := g.x_max, y_min := g.y_min, y_max := g.y_max,
             x_size := g.x_size, y_size := g.y_size,
             x_step := F64.div (F64.sub g.x_max g.x_min) (F64.ofInt (g.x_size - 1)),
             y_step := F64.div (F64.sub g.y_max g.y_min) (F64.ofInt (g.y_size - 1)),
             z_min := g.z_min, z_max := g.z_max,
             blank_value := GRID_DEFAULT_BLANK_VALUE,
             data := (List.range' 0 g.count).map (fun j => (g.cell j).narrow.widen) } := by
  have hprod : g.x_size * g.y_size < 2 ^ 31 := by nlinarith
  have hsx : short_to_int (int_to_short g.x_size % 256 ^ 2) = g.x_size := by
    have h : int_to_short g.x_size % 256 ^ 2 = int_to_short g.x_size := by
      unfold int_to_short; omega
    rw [h, short_to_int_int_to_short _ hx1 hx2]
  have hsy : short_to_int (int_to_short g.y_size % 256 ^ 2) = g.y_size := by
    have h : int_to_short g.y_size % 256 ^ 2 = int_to_short g.y_size := by
      unfold int_to_short; omega
    rw [h, short_to_int_int_to_short _ hy1 hy2]
  have hm := malloc_ok_of_nonneg _ hn hprod
  simp only [write_surfer_grid_6bin, if_true, read_surfer_grid_6bin, write_header,
    List.append_assoc, List.cons_append, List.nil_append, List.drop_succ_cons, List.drop_zero,
    fread_le_bytes, hsx, hsy, F64.ofBits_mod, if_pos hm, Grid.count]
  rw [← List.append_nil (write_cells g 0 _), read_cells_write_cells]

theorem rne_mul_pow (a sh : Nat) : rne (a * 2 ^ sh) sh = a := by
  have hP : 0 < 2 ^ sh := Nat.pow_pos (by decide)
  unfold rne
  simp only [Nat.mul_div_cancel _ hP, Nat.mul_mod_left]
  rw [if_neg]
  omega

theorem F32.widen_normal (f : F32) (h0 : f.expField ≠ 0) (h1 : f.expField ≠ 255) :
    f.widen.sign = f.sign ∧ f.widen.expField = f.expField + 896 ∧
      f.widen.frac = f.frac * 2 ^ 29 := by
  have hE := f.expField_lt_256
  have hM := f.frac_lt_pow
  unfold F32.widen
  simp only [h0, h1, if_false]
  exact F64.fields_ofBits f.sign (f.expField + 896) (f.frac * 2 ^ 29) (by omega) (by omega)

theorem F32.subnormal_scale (f : F32) (hM : f.frac ≠ 0) :
    ilog2 f.frac ≤ 22 ∧ 2 ^ 52 ≤ f.frac * 2 ^ (52 - ilog2 f.frac) ∧
      f.frac * 2 ^ (52 - ilog2 f.frac) < 2 ^ 53 := by
  have hlt := f.frac_lt_pow
  have hk : ilog2 f.frac < 23 := ilog2_lt _ 23 (by omega) hlt (by decide)
  obtain ⟨hlo, hhi⟩ := ilog2_spec f.frac (by omega)
    (lt_of_lt_of_le hlt (Nat.pow_le_pow_right (by decide) (by decide)))
  have hP : 0 < 2 ^ (52 - ilog2 f.frac) := Nat.pow_pos (by decide)
  have e1 : 2 ^ ilog2 f.frac * 2 ^ (52 - ilog2 f.frac) = 2 ^ 52 := by
    rw [← pow_add]; congr 1; omega
  have e2 : 2 ^ (ilog2 f.frac + 1) * 2 ^ (52 - ilog2 f.frac) = 2 ^ 53 := by
    rw [← pow_add]; congr 1; omega
  refine ⟨by omega, ?_, ?_⟩
  · rw [← e1]; exact Nat.mul_le_mul_right _ hlo
  · rw [← e2]; exact Nat.mul_lt_mul_of_pos_right hhi hP

theorem F32.widen_subnormal (f : F32) (h0 : f.expField = 0) (hM : f.frac ≠ 0) :
    f.widen.sign = f.sign ∧ f.widen.expField = ilog2 f.frac + 874 ∧
      f.widen.frac = f.frac * 2 ^ (52 - ilog2 f.frac) - 2 ^ 52 := by
  obtain ⟨hk, hlo, hhi⟩ := f.subnormal_scale hM
  unfold F32.widen
  simp only [h0, hM, if_true, if_false]
  rw [if_neg (by decide)]
  exact F64.fields_ofBits f.sign (ilog2 f.frac + 874) (f.frac * 2 ^ (52 - ilog2 f.frac) - 2 ^ 52)
    (by omega) (by omega)

theorem F32.widen_zero (f : F32) (h0 : f.expField = 0) (hM : f.frac = 0) :
    f.widen.sign = f.sign ∧ f.widen.expField = 0 ∧ f.widen.frac = 0 := by
  unfold F32.widen
  simp only [h0, hM, if_true]
  rw [if_neg (by decide)]
  simpa using F64.fields_ofBits f.sign 0 0 (by omega) (by omega)

theorem F32.widen_inf (f : F32) (h0 : f.expField = 255) (hM : f.frac = 0) :
    f.widen.sign = f.sign ∧ f.widen.expField = 2047 ∧ f.widen.frac = 0 := by
  unfold F32.widen
  simp only [h0, hM, if_true]
  simpa using F64.fields_ofBits f.sign 2047 0 (by omega) (by omega)

theorem F32.widen_nan (f : F32) (h0 : f.expField = 255) (hM : f.frac ≠ 0) :
    f.widen.sign = f.sign ∧ f.widen.expField = 2047 ∧
      f.widen.frac = (if f.frac < 2 ^ 22 then f.frac + 2 ^ 22 else f.frac) * 2 ^ 29 := by
  have hlt := f.frac_lt_pow
  unfold F32.widen
  simp only [h0, hM, if_true, if_false]
  exact F64.fields_ofBits f.sign 2047 _ (by omega) (by split <;> omega)

/-- Widening then narrowing gives back the same `float`, unless it is a signaling NaN
(which comes back quiet). -/
theorem F64.narrow_widen (f : F32) (h : ¬f.isSNaN) : f.widen.narrow = f := by
  have hbits := f.bits_split
  have hlt := f.frac_lt_pow
  have hE := f.expField_lt_256
  apply F32.eq_of_bits
  by_cases h255 : f.expField = 255
  · by_cases hM : f.frac = 0
    · obtain ⟨hs, he, hf⟩ := f.widen_inf h255 hM
      unfold F64.narrow
      simp only [hs, he, hf, if_true]
      rw [hbits, h255, hM]
      unfold F32.ofBits
      simp only []
      split <;> omega
    · obtain ⟨hs, he, hf⟩ := f.widen_nan h255 hM
      have hq : ¬f.frac < 2 ^ 22 := fun hq => h ⟨h255, hM, hq⟩
      rw [if_neg hq] at hf
      have hd : f.frac * 2 ^ 29 / 2 ^ 29 = f.frac := Nat.mul_div_cancel _ (by decide)
      have hne : f.frac * 2 ^ 29 ≠ 0 := by omega
      unfold F64.narrow
      simp only [hs, he, hf, if_true, hd, hne, if_false, hq]
      rw [hbits, h255]
      unfold F32.ofBits
      simp only []
      split <;> omega
  · by_cases h0 : f.expField = 0
    · by_cases hM : f.frac = 0
      · obtain ⟨hs, he, hf⟩ := f.widen_zero h0 hM
        have hr : rne 0 925 = 0 := by simpa using rne_mul_pow 0 925
        unfold F64.narrow F64.expo F64.sig
        simp only [hs, he, hf]
        norm_num [hr]
        rw [hbits, h0, hM]
        unfold F32.ofBits
        simp only []
        split <;> omega
      · obtain ⟨hs, he, hf⟩ := f.widen_subnormal h0 hM
        obtain ⟨hk, hlo, hhi⟩ := f.subnormal_scale hM
        have hsig : 2 ^ 52 + (f.frac * 2 ^ (52 - ilog2 f.frac) - 2 ^ 52) =
            f.frac * 2 ^ (52 - ilog2 f.frac) := by omega
        have hsh : 926 - (ilog2 f.frac + 874) = 52 - ilog2 f.frac := by omega
        have hmax : max (ilog2 f.frac + 874) 1 = ilog2 f.frac + 874 := by omega
        have hne : ¬(ilog2 f.frac + 874 = 2047) := by omega
        have hne0 : ¬(ilog2 f.frac + 874 = 0) := by omega
        have h897 : ¬(897 ≤ ilog2 f.frac + 874) := by omega
        unfold F64.narrow F64.expo F64.sig
        simp only [hs, he, hf, hmax, hne, hne0, h897, if_false, hsig, hsh, rne_mul_pow,
          Nat.zero_add]
        rw [if_neg (by omega), hbits, h0]
        unfold F32.ofBits
        simp only []
        split <;> omega
    · obtain ⟨hs, he, hf⟩ := f.widen_normal h0 h255
      have hsig : 2 ^ 52 + f.frac * 2 ^ 29 = (2 ^ 23 + f.frac) * 2 ^ 29 := by omega
      have hmax : max (f.expField + 896) 1 = f.expField + 896 := by omega
      have hne : ¬(f.expField + 896 = 2047) := by omega
      have hne0 : ¬(f.expField + 896 = 0) := by omega
      have h897 : 897 ≤ f.expField + 896 := by omega
      unfold F64.narrow F64.expo F64.sig
      simp only [hs, he, hf, hmax, hne, hne0, h897, if_true, if_false, hsig, rne_mul_pow]
      rw [if_neg (by omega), hbits]
      unfold F32.ofBits
      simp only []
      split <;> omega

theorem le_bytes_chunk (n : Nat) (file : List Nat) (hb : is_bytes file) (hlen : n ≤ file.length) :
    le_bytes n (le_val (file.take n)) = file.take n := by
  have h := le_bytes_le_val (file.take n) (is_bytes_take _ _ hb)
  rwa [List.length_take, Nat.min_eq_left hlen] at h

theorem le_val_chunk_lt (n : Nat) (file : List Nat) (hb : is_bytes file) (hlen : n ≤ file.length) :
    le_val (file.take n) < 256 ^ n := by
  have h := le_val_lt (file.take n) (is_bytes_take _ _ hb)
  rwa [List.length_take, Nat.min_eq_left hlen] at h

/-- Writing back the cells that the read loop produced from `file` reproduces `file`,
when no 4-byte group of `file` is a signaling NaN. -/
theorem write_cells_read_cells (g : Grid) (n : Nat) :
    ∀ (i : Nat) (pre : List F64) (fl : F32) (file : List Nat),
      is_bytes file → file.length = 4 * n → pre.length = i →
      g.data = pre ++ read_cells n fl file →
      (∀ j, j < n → ¬(F32.ofBits (le_val ((file.drop (4 * j)).take 4))).isSNaN) →
      write_cells g i n = file := by
  induction n with
  | zero =>
    intro i pre fl file _ hlen _ _ _
    simp only [write_cells]
    exact (List.length_eq_zero.mp (by omega)).symm
  | succ n ih =>
    intro i pre fl file hb hlen hpre hdata hs
    have h4 : 4 ≤ file.length := by omega
    have hcell : g.cell i = (F32.ofBits (le_val (file.take 4))).widen := by
      unfold Grid.cell
      rw [hdata, read_cells, fread_full _ _ _ h4]
      simp only []
      rw [List.getD_eq_getElem _ _ (by simp; omega)]
      rw [List.getElem_append_right (by omega)]
      simp [hpre]
    have hs0 := hs 0 (by omega)
    simp only [Nat.mul_zero, List.drop_zero] at hs0
    have hv : le_val (file.take 4) < 2 ^ 32 := le_val_chunk_lt 4 file hb h4
    have hbits : (F32.ofBits (le_val (file.take 4))).bits = le_val (file.take 4) := by
      unfold F32.ofBits; simp only []; omega
    have hrest : write_cells g (i + 1) n = file.drop 4 := by
      refine ih (i + 1) (pre ++ [(F32.ofBits (le_val (file.take 4))).widen])
        (F32.ofBits (le_val (file.take 4))) (file.drop 4) (is_bytes_drop _ _ hb)
        (by rw [List.length_drop]; omega) (by simp [hpre]) ?_ ?_
      · rw [hdata, read_cells, fread_full _ _ _ h4]
        simp only [List.append_assoc, List.singleton_append]
      · intro j hj
        have := hs (j + 1) (by omega)
        rw [List.drop_drop]
        have e : 4 + 4 * j = 4 * (j + 1) := by omega
        rw [e]; exact this
    simp only [write_cells]
    rw [hcell, F64.narrow_widen _ hs0, hbits, le_bytes_chunk 4 file hb h4, hrest,
      List.take_append_drop]

theorem fread_drop (n old : Nat) (s : List Nat) (k : Nat) (h : k + n ≤ s.length) :
    fread n old (s.drop k) = (le_val ((s.drop k).take n), s.drop (k + n)) := by
  rw [fread_full _ _ _ (by rw [List.length_drop]; omega), List.drop_drop]

/-- What `read_surfer_grid_6bin` returns on a file that holds at least the 56 header
bytes. -/
theorem read_of_header (u : Uninit) (s : List Nat) (h : 56 ≤ s.length) :
    read_surfer_grid_6bin u (some s) =
      if malloc_ok (malloc_request (short_to_int (le_val ((s.drop 4).take 2)) *
          short_to_int (le_val ((s.drop 6).take 2)))) then
        some { x_min := F64.ofBits (le_val ((s.drop 8).take 8)),
               x_max := F64.ofBits (le_val ((s.drop 16).take 8)),
               y_min := F64.ofBits (le_val ((s.drop 24).take 8)),
               y_max := F64.ofBits (le_val ((s.drop 32).take 8)),
               x_size := short_to_int (le_val ((s.drop 4).take 2)),
               y_size := short_to_int (le_val ((s.drop 6).take 2)),
               x_step := F64.div (F64.sub (F64.ofBits (le_val ((s.drop 16).take 8)))
                 (F64.ofBits (le_val ((s.drop 8).take 8))))
                 (F64.ofInt (short_to_int (le_val ((s.drop 4).take 2)) - 1)),
               y_step := F64.div (F64.sub (F64.ofBits (le_val ((s.drop 32).take 8)))
                 (F64.ofBits (le_val ((s.drop 24).take 8))))
                 (F64.ofInt (short_to_int (le_val ((s.drop 6).take 2)) - 1)),
               z_min := F64.ofBits (le_val ((s.drop 40).take 8)),
               z_max := F64.ofBits (le_val ((s.drop 48).take 8)),
               blank_value := GRID_DEFAULT_BLANK_VALUE,
               data := read_cells (short_to_int (le_val ((s.drop 4).take 2)) *
                 short_to_int (le_val ((s.drop 6).take 2))).toNat u.temp_fl (s.drop 56) }
      else none := by
  unfold read_surfer_grid_6bin
  simp only []
  rw [fread_drop 2 _ s 4 (by omega)]
  simp only []
  rw [fread_drop 2 _ s 6 (by omega)]
  simp only []
  rw [fread_drop 8 _ s 8 (by omega)]
  simp only []
  rw [fread_drop 8 _ s 16 (by omega)]
  simp only []
  rw [fread_drop 8 _ s 24 (by omega)]
  simp only []
  rw [fread_drop 8 _ s 32 (by omega)]
  simp only []
  rw [fread_drop 8 _ s 40 (by omega)]
  simp only []
  rw [fread_drop 8 _ s 48 (by omega)]

theorem short_to_int_bounds (v : Nat) : -2 ^ 15 ≤ short_to_int v ∧ short_to_int v < 2 ^ 15 := by
  unfold short_to_int
  split <;> omega

theorem le_bytes_short_chunk (s : List Nat) (k : Nat) (hb : is_bytes s) (h : k + 2 ≤ s.length) :
    le_bytes 2 (int_to_short (short_to_int (le_val ((s.drop k).take 2)))) = (s.drop k).take 2 := by
  have hl : 2 ≤ (s.drop k).length := by rw [List.length_drop]; omega
  have hv := le_val_chunk_lt 2 (s.drop k) (is_bytes_drop _ _ hb) hl
  rw [int_to_short_short_to_int, Nat.mod_eq_of_lt (by omega),
    le_bytes_chunk 2 _ (is_bytes_drop _ _ hb) hl]

theorem le_bytes_double_chunk (s : List Nat) (k : Nat) (hb : is_bytes s) (h : k + 8 ≤ s.length) :
    le_bytes 8 (F64.ofBits (le_val ((s.drop k).take 8))).bits = (s.drop k).take 8 := by
  have hl : 8 ≤ (s.drop k).length := by rw [List.length_drop]; omega
  have hv := le_val_chunk_lt 8 (s.drop k) (is_bytes_drop _ _ hb) hl
  have e : (F64.ofBits (le_val ((s.drop k).take 8))).bits = le_val ((s.drop k).take 8) := by
    unfold F64.ofBits; simp only []; omega
  rw [e, le_bytes_chunk 8 _ (is_bytes_drop _ _ hb) hl]

theorem take_succ_chunk (s : List Nat) (a b : Nat) :
    s.take (a + b) = s.take a ++ (s.drop a).take b := List.take_add s a b

theorem take_56 (s : List Nat) :
    s.take 56 = s.take 4 ++ (s.drop 4).take 2 ++ (s.drop 6).take 2 ++ (s.drop 8).take 8 ++
      (s.drop 16).take 8 ++ (s.drop 24).take 8 ++ (s.drop 32).take 8 ++ (s.drop 40).take 8 ++
      (s.drop 48).take 8 := by
  rw [← take_succ_chunk s 4 2, ← take_succ_chunk s 6 2, ← take_succ_chunk s 8 8,
    ← take_succ_chunk s 16 8, ← take_succ_chunk s 24 8, ← take_succ_chunk s 32 8,
    ← take_succ_chunk s 40 8, ← take_succ_chunk s 48 8]

/-- Writing a grid whose fields are what the reader extracts from `s` reproduces `s`. -/
theorem write_of_read_fields (s : List Nat) (g : Grid) (fl : F32) (hb : is_bytes s)
    (htag : s.take 4 = [68, 83, 66, 66])
    (hx : g.x_size = short_to_int (le_val ((s.drop 4).take 2)))
    (hy : g.y_size = short_to_int (le_val ((s.drop 6).take 2)))
    (hx_min : g.x_min = F64.ofBits (le_val ((s.drop 8).take 8)))
    (hx_max : g.x_max = F64.ofBits (le_val ((s.drop 16).take 8)))
    (hy_min : g.y_min = F64.ofBits (le_val ((s.drop 24).take 8)))
    (hy_max : g.y_max = F64.ofBits (le_val ((s.drop 32).take 8)))
    (hz_min : g.z_min = F64.ofBits (le_val ((s.drop 40).take 8)))
    (hz_max : g.z_max = F64.ofBits (le_val ((s.drop 48).take 8)))
    (hdata : g.data = read_cells g.count fl (s.drop 56))
    (hlen : s.length = 56 + 4 * g.count)
    (hq : ∀ i : Nat, i < g.count →
      ¬(F32.ofBits (le_val ((s.drop (56 + 4 * i)).take 4))).isSNaN) :
    write_surfer_grid_6bin true g = some s := by
  have hcells : write_cells g 0 g.count = s.drop 56 :=
    write_cells_read_cells g g.count 0 [] fl (s.drop 56) (is_bytes_drop _ _ hb)
      (by rw [List.length_drop]; omega) rfl (by simpa using hdata)
      (fun j hj => by rw [List.drop_drop]; exact hq j hj)
  simp only [write_surfer_grid_6bin, if_true, Option.some.injEq]
  rw [hcells]
  unfold write_header
  rw [hx, hy, hx_min, hx_max, hy_min, hy_max, hz_min, hz_max,
    le_bytes_short_chunk s 4 hb (by omega), le_bytes_short_chunk s 6 hb (by omega),
    le_bytes_double_chunk s 8 hb (by omega), le_bytes_double_chunk s 16 hb (by omega),
    le_bytes_double_chunk s 24 hb (by omega), le_bytes_double_chunk s 32 hb (by omega),
    le_bytes_double_chunk s 40 hb (by omega), le_bytes_double_chunk s 48 hb (by omega),
    ← htag, ← take_56, List.take_append_drop]

/-- C6, as amended: for a byte stream that starts with "DSBB", carries positive sizes
`nx`, `ny`, has exactly `56 + 4 * nx * ny` bytes and none of whose cells is a signaling
NaN, `read_surfer_grid_6bin` returns a grid and `write_surfer_grid_6bin` of that grid
reproduces the stream byte for byte. -/
theorem write_read (u : Uninit) (s : List Nat) (hb : is_bytes s)
    (htag : s.take 4 = [68, 83, 66, 66])
    (hnx : 0 < short_to_int (le_val ((s.drop 4).take 2)))
    (hny : 0 < short_to_int (le_val ((s.drop 6).take 2)))
    (hlen : (s.length : Int) = 56 + 4 * (short_to_int (le_val ((s.drop 4).take 2)) *
      short_to_int (le_val ((s.drop 6).take 2))))
    (hq : ∀ i : Nat, (i : Int) < short_to_int (le_val ((s.drop 4).take 2)) *
        short_to_int (le_val ((s.drop 6).take 2)) →
      ¬(F32.ofBits (le_val ((s.drop (56 + 4 * i)).take 4))).isSNaN) :
    ∃ g, read_surfer_grid_6bin u (some s) = some g ∧
      write_surfer_grid_6bin true g = some s := by
  obtain ⟨_, hx2⟩ := short_to_int_bounds (le_val ((s.drop 4).take 2))
  obtain ⟨_, hy2⟩ := short_to_int_bounds (le_val ((s.drop 6).take 2))
  have hpos := Int.mul_pos hnx hny
  have hprod : short_to_int (le_val ((s.drop 4).take 2)) *
      short_to_int (le_val ((s.drop 6).take 2)) < 2 ^ 31 := by nlinarith
  have h56 : 56 ≤ s.length := by omega
  have hm := malloc_ok_of_nonneg _ (le_of_lt hpos) hprod
  rw [read_of_header u s h56, if_pos hm]
  refine ⟨_, rfl, ?_⟩
  refine write_of_read_fields s _ u.temp_fl hb htag rfl rfl rfl rfl rfl rfl rfl rfl rfl ?_ ?_
  · unfold Grid.count
    simp only []
    omega
  · intro i hi
    unfold Grid.count at hi
    simp only [] at hi
    exact hq i (by omega)

/-- C6 as stated fails on `snan_stream`: it starts with "DSBB", carries the sizes 2 and 2
and has `56 + 4 * 2 * 2` bytes; `read_surfer_grid_6bin` returns a grid, and writing that
grid back gives the first cell as the quiet NaN `0x7FC00001`: byte 58 is 192, not 128. -/
theorem write_read_snan_stream :
    is_bytes snan_stream ∧ snan_stream.take 4 = [68, 83, 66, 66] ∧
    short_to_int (le_val ((snan_stream.drop 4).take 2)) = 2 ∧
    short_to_int (le_val ((snan_stream.drop 6).take 2)) = 2 ∧
    snan_stream.length = 56 + 4 * 2 * 2 ∧
    (read_surfer_grid_6bin uninit_zero (some snan_stream)).isSome = true ∧
    (read_surfer_grid_6bin uninit_zero (some snan_stream)).bind (write_surfer_grid_6bin true) =
      some (snan_stream.take 58 ++ [192] ++ snan_stream.drop 59) ∧
    (read_surfer_grid_6bin uninit_zero (some snan_stream)).bind (write_surfer_grid_6bin true) ≠
      some snan_stream := by
  decide

theorem rne_cases (n sh : Nat) : rne n sh = n / 2 ^ sh ∨ rne n sh = n / 2 ^ sh + 1 := by
  unfold rne
  simp only []
  split
  · exact Or.inr rfl
  · exact Or.inl rfl

/-- The rounding error of `rne` is at most half a unit. -/
theorem rne_err (n sh : Nat) :
    2 * (rne n sh * 2 ^ sh) ≤ 2 * n + 2 ^ sh ∧ 2 * n ≤ 2 * (rne n sh * 2 ^ sh) + 2 ^ sh := by
  have hP : 0 < 2 ^ sh := Nat.pow_pos (by decide)
  have hdm := Nat.div_add_mod n (2 ^ sh)
  have hr := Nat.mod_lt n hP
  unfold rne
  simp only []
  generalize 2 ^ sh = P at *
  generalize n / P = q at *
  generalize n % P = r at *
  split
  · rename_i hc
    have h2 : P ≤ 2 * r := by omega
    constructor <;> nlinarith
  · rename_i hc
    have h2 : 2 * r ≤ P := by omega
    constructor <;> nlinarith

theorem F32.mag_of_small (sb : Bool) (R : Nat) (hR : R ≤ 2 ^ 23) :
    (F32.ofBits ((if sb then 2 ^ 31 else 0) + R)).sign = sb ∧
    (F32.ofBits ((if sb then 2 ^ 31 else 0) + R)).expField ≠ 255 ∧
    (F32.ofBits ((if sb then 2 ^ 31 else 0) + R)).mag = R * 2 ^ 925 ∧
    (F32.ofBits ((if sb then 2 ^ 31 else 0) + R)).expo = 1 := by
  by_cases hlt : R < 2 ^ 23
  · have e : (if sb then 2 ^ 31 else 0) + R = (if sb then 2 ^ 31 else 0) + 0 * 2 ^ 23 + R := by
      omega
    obtain ⟨hs, he, hf⟩ := F32.fields_of_bits sb 0 R (by omega) hlt
    rw [e]
    refine ⟨hs, by rw [he]; decide, ?_, ?_⟩
    · unfold F32.mag F32.sig F32.expo
      rw [he, hf]
      simp
    · unfold F32.expo
      rw [he]
      rfl
  · have hR2 : R = 2 ^ 23 := by omega
    have e : (if sb then 2 ^ 31 else 0) + R = (if sb then 2 ^ 31 else 0) + 1 * 2 ^ 23 + 0 := by
      omega
    obtain ⟨hs, he, hf⟩ := F32.fields_of_bits sb 1 0 (by omega) (by omega)
    rw [e]
    refine ⟨hs, by rw [he]; decide, ?_, ?_⟩
    · unfold F32.mag F32.sig F32.expo
      rw [he, hf, hR2]
      simp
    · unfold F32.expo
      rw [he]
      rfl

theorem F32.mag_of_mant (sb : Bool) (e R : Nat) (hR1 : 2 ^ 23 ≤ R) (hR2 : R ≤ 2 ^ 24)
    (hm : e * 2 ^ 23 + R < 255 * 2 ^ 23) :
    (F32.ofBits ((if sb then 2 ^ 31 else 0) + (e * 2 ^ 23 + R))).sign = sb ∧
    (F32.ofBits ((if sb then 2 ^ 31 else 0) + (e * 2 ^ 23 + R))).expField ≠ 255 ∧
    (F32.ofBits ((if sb then 2 ^ 31 else 0) + (e * 2 ^ 23 + R))).mag = R * 2 ^ (e + 925) ∧
    e + 1 ≤ (F32.ofBits ((if sb then 2 ^ 31 else 0) + (e * 2 ^ 23 + R))).expo := by
  by_cases hlt : R < 2 ^ 24
  · have eq1 : (if sb then 2 ^ 31 else 0) + (e * 2 ^ 23 + R) =
        (if sb then 2 ^ 31 else 0) + (e + 1) * 2 ^ 23 + (R - 2 ^ 23) := by omega
    obtain ⟨hs, he, hf⟩ := F32.fields_of_bits sb (e + 1) (R - 2 ^ 23) (by omega) (by omega)
    rw [eq1]
    have hmax : max (e + 1) 1 = e + 1 := by omega
    refine ⟨hs, by rw [he]; omega, ?_, ?_⟩
    · unfold F32.mag F32.sig F32.expo
      rw [he, hf, hmax, if_neg (by omega)]
      have : 2 ^ 23 + (R - 2 ^ 23) = R := by omega
      rw [this]
      congr 2
    · unfold F32.expo
      rw [he, hmax]
  · have hRe : R = 2 ^ 24 := by omega
    have eq1 : (if sb then 2 ^ 31 else 0) + (e * 2 ^ 23 + R) =
        (if sb then 2 ^ 31 else 0) + (e + 2) * 2 ^ 23 + 0 := by omega
    obtain ⟨hs, he, hf⟩ := F32.fields_of_bits sb (e + 2) 0 (by omega) (by omega)
    rw [eq1]
    have hmax : max (e + 2) 1 = e + 2 := by omega
    refine ⟨hs, by rw [he]; omega, ?_, ?_⟩
    · unfold F32.mag F32.sig F32.expo
      rw [he, hf, hmax, if_neg (by omega), hRe]
      have : e + 2 - 1 + 925 = (e + 925) + 1 := by omega
      rw [this, pow_succ]
      ring
    · unfold F32.expo
      rw [he, hmax]
      omega

theorem scale_le_up (S R P Q T U : Nat) (hT : T = P * Q) (h : 2 * (R * P) ≤ 2 * S + P)
    (hU : T ≤ U) : 2 * (R * T) ≤ 2 * (S * Q) + U := by
  subst hT
  have h1 : 2 * (R * P) * Q ≤ (2 * S + P) * Q := Nat.mul_le_mul_right Q h
  have e1 : 2 * (R * (P * Q)) = 2 * (R * P) * Q := by ring
  have e2 : (2 * S + P) * Q = 2 * (S * Q) + P * Q := by ring
  omega

theorem scale_le_down (S R P Q T U : Nat) (hT : T = P * Q) (h : 2 * S ≤ 2 * (R * P) + P)
    (hU : T ≤ U) : 2 * (S * Q) ≤ 2 * (R * T) + U := by
  subst hT
  have h1 : 2 * S * Q ≤ (2 * (R * P) + P) * Q := Nat.mul_le_mul_right Q h
  have e1 : 2 * (S * Q) = 2 * S * Q := by ring
  have e2 : (2 * (R * P) + P) * Q = 2 * (R * (P * Q)) + P * Q := by ring
  omega

theorem F64.sig_lt (d : F64) : d.sig < 2 ^ 53 := by
  have := d.frac_lt
  unfold F64.sig
  split <;> omega

theorem F64.sig_ge (d : F64) (h : 2 ≤ d.expo) : 2 ^ 52 ≤ d.sig := by
  unfold F64.expo at h
  unfold F64.sig
  rw [if_neg (by omega)]
  omega

/-- Narrowing a finite double to a finite float: the sign is kept and the magnitude
moves by at most half the float's unit in the last place. -/
theorem F64.narrow_finite (d : F64) (hfin : d.expField ≠ 2047) (hres : d.narrow.expField ≠ 255) :
    d.narrow.sign = d.sign ∧
    2 * d.narrow.mag ≤ 2 * d.mag + 2 ^ (d.narrow.expo - 1 + 925) ∧
    2 * d.mag ≤ 2 * d.narrow.mag + 2 ^ (d.narrow.expo - 1 + 925) := by
  have hE1 : 1 ≤ d.expo := by unfold F64.expo; omega
  have hE2 : d.expo ≤ 2046 := by have := d.expField_lt; unfold F64.expo; omega
  have hS := d.sig_lt
  have hinf : ∀ sb : Bool, (F32.ofBits ((if sb then 2 ^ 31 else 0) + 255 * 2 ^ 23)).expField = 255 := by
    intro sb
    have := (F32.fields_of_bits sb 255 0 (by omega) (by omega)).2.1
    simpa using this
  by_cases hA : 897 ≤ d.expo
  · -- the result is a normal float (or overflows)
    have hSge := d.sig_ge (by omega)
    have hq1 : 2 ^ 23 ≤ d.sig / 2 ^ 29 := by omega
    have hq2 : d.sig / 2 ^ 29 < 2 ^ 24 := by omega
    have hR1 : 2 ^ 23 ≤ rne d.sig 29 := by rcases rne_cases d.sig 29 with h | h <;> omega
    have hR2 : rne d.sig 29 ≤ 2 ^ 24 := by rcases rne_cases d.sig 29 with h | h <;> omega
    obtain ⟨herr1, herr2⟩ := rne_err d.sig 29
    have hn : d.narrow = if 255 * 2 ^ 23 ≤ (d.expo - 897) * 2 ^ 23 + rne d.sig 29 then
        F32.ofBits ((if d.sign then 2 ^ 31 else 0) + 255 * 2 ^ 23)
        else F32.ofBits ((if d.sign then 2 ^ 31 else 0) + ((d.expo - 897) * 2 ^ 23 + rne d.sig 29)) := by
      unfold F64.narrow
      simp only [hfin, if_false, hA, if_true]
    by_cases hov : 255 * 2 ^ 23 ≤ (d.expo - 897) * 2 ^ 23 + rne d.sig 29
    · rw [if_pos hov] at hn
      rw [hn] at hres
      exact absurd (hinf d.sign) hres
    · rw [if_neg hov] at hn
      obtain ⟨hs, _, hmag, hexpo⟩ := F32.mag_of_mant d.sign (d.expo - 897) (rne d.sig 29) hR1 hR2
        (by omega)
      rw [hn]
      have hle : d.expo - 897 + 925 ≤
          (F32.ofBits ((if d.sign then 2 ^ 31 else 0) +
            ((d.expo - 897) * 2 ^ 23 + rne d.sig 29))).expo - 1 + 925 := by omega
      have hT : 2 ^ (d.expo - 897 + 925) = 2 ^ 29 * 2 ^ (d.expo - 1) := by
        have e : d.expo - 897 + 925 = 29 + (d.expo - 1) := by omega
        rw [e, pow_add]
      have hU := Nat.pow_le_pow_right (show 0 < 2 by norm_num) hle
      refine ⟨hs, ?_, ?_⟩
      · rw [hmag]
        exact scale_le_up d.sig _ _ (2 ^ (d.expo - 1)) _ _ hT herr1 hU
      · rw [hmag]
        exact scale_le_down d.sig _ _ (2 ^ (d.expo - 1)) _ _ hT herr2 hU
  · -- the result is a subnormal float, zero, or the smallest normal float
    have hsh : 30 ≤ 926 - d.expo := by omega
    have hq : d.sig / 2 ^ (926 - d.expo) < 2 ^ 23 := by
      have hp : 2 ^ 30 ≤ 2 ^ (926 - d.expo) := Nat.pow_le_pow_right (by norm_num) hsh
      have h30 : 0 < 2 ^ 30 := by norm_num
      have h1 : d.sig / 2 ^ (926 - d.expo) ≤ d.sig / 2 ^ 30 := Nat.div_le_div_left hp h30
      omega
    have hR : rne d.sig (926 - d.expo) ≤ 2 ^ 23 := by
      rcases rne_cases d.sig (926 - d.expo) with h | h <;> omega
    obtain ⟨herr1, herr2⟩ := rne_err d.sig (926 - d.expo)
    have hn : d.narrow =
        F32.ofBits ((if d.sign then 2 ^ 31 else 0) + rne d.sig (926 - d.expo)) := by
      unfold F64.narrow
      simp only [hfin, if_false, hA, Nat.zero_add]
      rw [if_neg (by omega)]
    obtain ⟨hs, _, hmag, hexpo⟩ := F32.mag_of_small d.sign (rne d.sig (926 - d.expo)) hR
    rw [hn]
    have hT : 2 ^ 925 = 2 ^ (926 - d.expo) * 2 ^ (d.expo - 1) := by
      have e : 925 = (926 - d.expo) + (d.expo - 1) := by omega
      rw [← pow_add, ← e]
    have hle : 925 ≤ (F32.ofBits ((if d.sign then 2 ^ 31 else 0) +
        rne d.sig (926 - d.expo))).expo - 1 + 925 := by omega
    have hU := Nat.pow_le_pow_right (show 0 < 2 by norm_num) hle
    refine ⟨hs, ?_, ?_⟩
    · rw [hmag]
      exact scale_le_up d.sig _ _ (2 ^ (d.expo - 1)) _ _ hT herr1 hU
    · rw [hmag]
      exact scale_le_down d.sig _ _ (2 ^ (d.expo - 1)) _ _ hT herr2 hU

/-- Widening a finite float is exact: same sign, same magnitude, finite result. -/
theorem F32.widen_finite (f : F32) (hfin : f.expField ≠ 255) :
    f.widen.expField ≠ 2047 ∧ f.widen.sign = f.sign ∧ f.widen.mag = f.mag := by
  have hE := f.expField_lt_256
  by_cases h0 : f.expField = 0
  · by_cases hM : f.frac = 0
    · obtain ⟨hs, he, hf⟩ := f.widen_zero h0 hM
      refine ⟨by omega, hs, ?_⟩
      unfold F64.mag F64.sig F32.mag F32.sig
      rw [he, hf, h0, hM]
      simp
    · obtain ⟨hs, he, hf⟩ := f.widen_subnormal h0 hM
      obtain ⟨hk, hlo, hhi⟩ := f.subnormal_scale hM
      refine ⟨by omega, hs, ?_⟩
      unfold F64.mag F64.sig F64.expo F32.mag F32.sig F32.expo
      have hne : ¬(ilog2 f.frac + 874 = 0) := by omega
      rw [he, hf, h0, if_neg hne, if_pos rfl]
      have h1 : 2 ^ 52 + (f.frac * 2 ^ (52 - ilog2 f.frac) - 2 ^ 52) =
          f.frac * 2 ^ (52 - ilog2 f.frac) := by omega
      have h2 : max (ilog2 f.frac + 874) 1 - 1 = ilog2 f.frac + 873 := by omega
      have h3 : max 0 1 - 1 + 925 = 925 := by decide
      have h4 : 52 - ilog2 f.frac + (ilog2 f.frac + 873) = 925 := by omega
      rw [h1, h2, h3, Nat.mul_assoc, ← pow_add, h4]
  · obtain ⟨hs, he, hf⟩ := f.widen_normal h0 hfin
    refine ⟨by omega, hs, ?_⟩
    unfold F64.mag F64.sig F64.expo F32.mag F32.sig F32.expo
    have hne : ¬(f.expField + 896 = 0) := by omega
    rw [he, hf, if_neg hne, if_neg h0]
    have h1 : 2 ^ 52 + f.frac * 2 ^ 29 = (2 ^ 23 + f.frac) * 2 ^ 29 := by omega
    have h2 : max (f.expField + 896) 1 - 1 = f.expField + 895 := by omega
    have h3 : max f.expField 1 - 1 + 925 = 29 + (f.expField + 895) := by omega
    rw [h1, h2, h3, Nat.mul_assoc, ← pow_add]

theorem F64.narrow_expField_of_not_finite (d : F64) (h : d.expField = 2047) :
    d.narrow.expField = 255 := by
  have hlt := d.frac_lt
  unfold F64.narrow
  simp only [h, if_true]
  split
  · simpa using (F32.fields_of_bits d.sign 255 0 (by omega) (by omega)).2.1
  · exact (F32.fields_of_bits d.sign 255 _ (by omega) (by split <;> omega)).2.1

theorem abs_scaled_sub_le (sg : Bool) (a b U : Nat) (c : ℚ) (hc : 0 < c)
    (h1 : 2 * a ≤ 2 * b + U) (h2 : 2 * b ≤ 2 * a + U) :
    |(if sg then -1 else 1) * ((a : ℚ) / c) - (if sg then -1 else 1) * ((b : ℚ) / c)| ≤
      (U : ℚ) / c := by
  have h1q : (2 : ℚ) * a ≤ 2 * b + U := by exact_mod_cast h1
  have h2q : (2 : ℚ) * b ≤ 2 * a + U := by exact_mod_cast h2
  have hU : (0 : ℚ) ≤ U := Nat.cast_nonneg U
  have hab : |(a : ℚ) - b| ≤ U := abs_le.mpr ⟨by linarith, by linarith⟩
  have e : (if sg then (-1 : ℚ) else 1) * ((a : ℚ) / c) - (if sg then -1 else 1) * ((b : ℚ) / c) =
      (if sg then (-1 : ℚ) else 1) * (((a : ℚ) - b) / c) := by ring
  have hs : |(if sg then (-1 : ℚ) else 1)| = 1 := by cases sg <;> simp
  rw [e, abs_mul, hs, one_mul, abs_div, abs_of_pos hc]
  exact div_le_div_of_nonneg_right hab (le_of_lt hc)

/-- A double whose narrowing is a finite float comes back, after widening, within one
unit in the last place of that float (indeed within half of it). -/
theorem F64.widen_narrow_error (d : F64) (hres : d.narrow.isFinite) :
    d.isFinite ∧ d.narrow.widen.isFinite ∧
      |d.narrow.widen.toRat - d.toRat| ≤ d.narrow.ulp := by
  have hfin : d.expField ≠ 2047 := fun h => hres (d.narrow_expField_of_not_finite h)
  obtain ⟨hs, hup, hdown⟩ := d.narrow_finite hfin hres
  obtain ⟨hwf, hws, hwm⟩ := d.narrow.widen_finite hres
  refine ⟨hfin, hwf, ?_⟩
  unfold F64.toRat F32.ulp
  rw [hws, hwm, hs]
  have hc : (0 : ℚ) < 2 ^ 1074 := by positivity
  have key := abs_scaled_sub_le d.sign d.narrow.mag d.mag (2 ^ (d.narrow.expo - 1 + 925))
    (2 ^ 1074) hc hup hdown
  simpa using key

theorem write_cells_length (g : Grid) (n i : Nat) : (write_cells g i n).length = 4 * n := by
  induction n generalizing i with
  | zero => rfl
  | succ n ih => simp only [write_cells, List.length_append, le_bytes_length, ih]; omega

theorem write_cells_chunk (g : Grid) (n : Nat) : ∀ (i k : Nat), k < n →
    ((write_cells g i n).drop (4 * k)).take 4 = le_bytes 4 (g.cell (i + k)).narrow.bits := by
  induction n with
  | zero => intro i k hk; omega
  | succ n ih =>
    intro i k hk
    simp only [write_cells]
    cases k with
    | zero =>
      simp only [Nat.mul_zero, List.drop_zero, Nat.add_zero]
      exact List.take_left' (le_bytes_length 4 _)
    | succ k =>
      have e : 4 * (k + 1) = 4 + 4 * k := by omega
      rw [e, ← List.drop_drop, List.drop_left' (le_bytes_length 4 _), ih (i + 1) k (by omega)]
      congr 4
      omega

theorem write_header_length (g : Grid) : (write_header g).length = 56 := by
  simp [write_header, le_bytes_length]

theorem drop_header_append (g : Grid) (cells : List Nat) (k : Nat) :
    (write_header g ++ cells).drop (56 + k) = cells.drop k := by
  rw [← List.drop_drop, List.drop_left' (write_header_length g)]

theorem sample_grid_wf : sample_grid.wf := by decide

/-- C4: for a grid whose sizes are at least 2 and fit a `short`, reading back the written
file gives a grid with the same sizes, bounds, `z_min` and `z_max`, and with the steps
computed as `(max - min) / (size - 1)` in double arithmetic. -/
theorem read_write_metadata (u : Uninit) (g : Grid)
    (hx : 2 ≤ g.x_size) (hx2 : g.x_size ≤ 32767) (hy : 2 ≤ g.y_size) (hy2 : g.y_size ≤ 32767) :
    ∃ g2, read_surfer_grid_6bin u (write_surfer_grid_6bin true g) = some g2 ∧
      g2.x_size = g.x_size ∧ g2.y_size = g.y_size ∧
      g2.x_min = g.x_min ∧ g2.x_max = g.x_max ∧ g2.y_min = g.y_min ∧ g2.y_max = g.y_max ∧
      g2.z_min = g.z_min ∧ g2.z_max = g.z_max ∧
      g2.x_step = F64.div (F64.sub g.x_max g.x_min) (F64.ofInt (g.x_size - 1)) ∧
      g2.y_step = F64.div (F64.sub g.y_max g.y_min) (F64.ofInt (g.y_size - 1)) := by
  have hn : 0 ≤ g.x_size * g.y_size := by nlinarith
  exact ⟨_, read_write u g (by omega) (by omega) (by omega) (by omega) hn,
    rfl, rfl, rfl, rfl, rfl, rfl, rfl, rfl, rfl, rfl⟩

theorem read_write_metadata_witness :
    ∃ g2, read_surfer_grid_6bin uninit_zero (write_surfer_grid_6bin true sample_grid) = some g2 ∧
      g2.x_size = sample_grid.x_size ∧ g2.y_size = sample_grid.y_size ∧
      g2.x_min = sample_grid.x_min ∧ g2.x_max = sample_grid.x_max ∧
      g2.y_min = sample_grid.y_min ∧ g2.y_max = sample_grid.y_max ∧
      g2.z_min = sample_grid.z_min ∧ g2.z_max = sample_grid.z_max ∧
      g2.x_step = F64.div (F64.sub sample_grid.x_max sample_grid.x_min)
        (F64.ofInt (sample_grid.x_size - 1)) ∧
      g2.y_step = F64.div (F64.sub sample_grid.y_max sample_grid.y_min)
        (F64.ofInt (sample_grid.y_size - 1)) :=
  read_write_metadata uninit_zero sample_grid (by decide) (by decide) (by decide) (by decide)

/-- C5: the file written for a grid has `56 + 4 * x_size * y_size` bytes: the tag "DSBB"
at offset 0, the sizes as little-endian 16-bit two's-complement integers at offsets 4
and 6 (the very sizes when they fit 16 bits), the six doubles `x_min, x_max, y_min,
y_max, z_min, z_max` as 8 little-endian bytes each at offsets 8 .. 48, and cell `i` of the
data array, narrowed to single precision, as 4 bytes at offset `56 + 4 * i`; the cell of
coordinates `(x, y)` is the one of index `y * x_size + x`. -/
theorem write_surfer_grid_6bin_layout (g : Grid) (hwf : g.wf) :
    ∃ out, write_surfer_grid_6bin true g = some out ∧
      (out.length : Int) = 56 + 4 * (g.x_size * g.y_size) ∧
      out.take 4 = ['D', 'S', 'B', 'B'].map Char.toNat ∧
      (out.drop 4).take 2 = le_bytes 2 (int_to_short g.x_size) ∧
      (out.drop 6).take 2 = le_bytes 2 (int_to_short g.y_size) ∧
      (-2 ^ 15 ≤ g.x_size ∧ g.x_size < 2 ^ 15 →
        short_to_int (le_val ((out.drop 4).take 2)) = g.x_size) ∧
      (-2 ^ 15 ≤ g.y_size ∧ g.y_size < 2 ^ 15 →
        short_to_int (le_val ((out.drop 6).take 2)) = g.y_size) ∧
      (out.drop 8).take 8 = le_bytes 8 g.x_min.bits ∧
      (out.drop 16).take 8 = le_bytes 8 g.x_max.bits ∧
      (out.drop 24).take 8 = le_bytes 8 g.y_min.bits ∧
      (out.drop 32).take 8 = le_bytes 8 g.y_max.bits ∧
      (out.drop 40).take 8 = le_bytes 8 g.z_min.bits ∧
      (out.drop 48).take 8 = le_bytes 8 g.z_max.bits ∧
      (∀ i, i < g.data.length →
        (out.drop (56 + 4 * i)).take 4 = le_bytes 4 (g.cell i).narrow.bits) ∧
      (∀ x y : Int, 0 ≤ x → x < g.x_size → 0 ≤ y → y < g.y_size →
        (out.drop (56 + 4 * (y * g.x_size + x).toNat)).take 4 =
          le_bytes 4 (get_xy_value (some g) x y).narrow.bits) := by
  have hlen := hwf.2.2.2.2.2
  have hcount : g.count = g.data.length := by unfold Grid.count; omega
  have hcell : ∀ i, i < g.data.length →
      ((write_header g ++ write_cells g 0 g.count).drop (56 + 4 * i)).take 4 =
        le_bytes 4 (g.cell i).narrow.bits := by
    intro i hi
    rw [drop_header_append, write_cells_chunk g g.count 0 i (by omega), Nat.zero_add]
  have hsx : (le_bytes 2 (int_to_short g.x_size)) = [int_to_short g.x_size % 256,
      int_to_short g.x_size / 256 % 256] := rfl
  have hsy : (le_bytes 2 (int_to_short g.y_size)) = [int_to_short g.y_size % 256,
      int_to_short g.y_size / 256 % 256] := rfl
  refine ⟨write_header g ++ write_cells g 0 g.count, by simp [write_surfer_grid_6bin], ?_,
    ?_, ?_, ?_, ?_, ?_, ?_, ?_, ?_, ?_, ?_, ?_, hcell, ?_⟩
  · rw [List.length_append, write_header_length, write_cells_length, hcount]
    omega
  · simp [write_header]
  · simp [write_header, le_bytes]
  · simp [write_header, le_bytes]
  · intro h
    have e : ((write_header g ++ write_cells g 0 g.count).drop 4).take 2 =
        le_bytes 2 (int_to_short g.x_size) := by simp [write_header, le_bytes]
    rw [e, le_val_le_bytes]
    have h2 : int_to_short g.x_size % 256 ^ 2 = int_to_short g.x_size := by
      unfold int_to_short; omega
    rw [h2, short_to_int_int_to_short _ h.1 h.2]
  · intro h
    have e : ((write_header g ++ write_cells g 0 g.count).drop 6).take 2 =
        le_bytes 2 (int_to_short g.y_size) := by simp [write_header, le_bytes]
    rw [e, le_val_le_bytes]
    have h2 : int_to_short g.y_size % 256 ^ 2 = int_to_short g.y_size := by
      unfold int_to_short; omega
    rw [h2, short_to_int_int_to_short _ h.1 h.2]
  · simp [write_header, le_bytes]
  · simp [write_header, le_bytes]
  · simp [write_header, le_bytes]
  · simp [write_header, le_bytes]
  · simp [write_header, le_bytes]
  · simp [write_header, le_bytes]
  · intro x y hx hx2 hy hy2
    have hidx := index_lt_of_in_range g x y hwf hx hx2 hy hy2
    have hin : ¬out_of_bounds g x y := by
      rw [out_of_bounds_iff]; exact fun h => h ⟨hx, hx2, hy, hy2⟩
    rw [hcell _ hidx]
    simp [get_xy_value, hin]

theorem write_surfer_grid_6bin_layout_witness :
    ∃ out, write_surfer_grid_6bin true sample_grid = some out ∧
      (out.length : Int) = 56 + 4 * (sample_grid.x_size * sample_grid.y_size) ∧
      out.take 4 = ['D', 'S', 'B', 'B'].map Char.toNat ∧
      (out.drop 4).take 2 = le_bytes 2 (int_to_short sample_grid.x_size) ∧
      (out.drop 6).take 2 = le_bytes 2 (int_to_short sample_grid.y_size) ∧
      (-2 ^ 15 ≤ sample_grid.x_size ∧ sample_grid.x_size < 2 ^ 15 →
        short_to_int (le_val ((out.drop 4).take 2)) = sample_grid.x_size) ∧
      (-2 ^ 15 ≤ sample_grid.y_size ∧ sample_grid.y_size < 2 ^ 15 →
        short_to_int (le_val ((out.drop 6).take 2)) = sample_grid.y_size) ∧
      (out.drop 8).take 8 = le_bytes 8 sample_grid.x_min.bits ∧
      (out.drop 16).take 8 = le_bytes 8 sample_grid.x_max.bits ∧
      (out.drop 24).take 8 = le_bytes 8 sample_grid.y_min.bits ∧
      (out.drop 32).take 8 = le_bytes 8 sample_grid.y_max.bits ∧
      (out.drop 40).take 8 = le_bytes 8 sample_grid.z_min.bits ∧
      (out.drop 48).take 8 = le_bytes 8 sample_grid.z_max.bits ∧
      (∀ i, i < sample_grid.data.length →
        (out.drop (56 + 4 * i)).take 4 = le_bytes 4 (sample_grid.cell i).narrow.bits) ∧
      (∀ x y : Int, 0 ≤ x → x < sample_grid.x_size → 0 ≤ y → y < sample_grid.y_size →
        (out.drop (56 + 4 * (y * sample_grid.x_size + x).toNat)).take 4 =
          le_bytes 4 (get_xy_value (some sample_grid) x y).narrow.bits) :=
  write_surfer_grid_6bin_layout sample_grid sample_grid_wf

theorem cell_map_range (g : Grid) (f : F64 → F64) (n i : Nat) (hi : i < n) :
    ((List.range' 0 n).map (fun j => f (g.cell j))).getD i F64.zero = f (g.cell i) := by
  rw [List.getD_eq_getElem _ _ (by simpa using hi)]
  simp

/-- C7, as amended: for a grid whose sizes fit a `short`, every cell of the grid read back
from the written file is `widen (narrow cell)`; and whenever that narrowed value is finite
(the cell is finite and does not round beyond the largest float) the cell read back
differs from the original by at most one single-precision ulp of the narrowed value. -/
theorem read_write_cells (u : Uninit) (g : Grid) (hwf : g.wf)
    (hx1 : -2 ^ 15 ≤ g.x_size) (hx2 : g.x_size < 2 ^ 15)
    (hy1 : -2 ^ 15 ≤ g.y_size) (hy2 : g.y_size < 2 ^ 15) :
    ∃ g2, read_surfer_grid_6bin u (write_surfer_grid_6bin true g) = some g2 ∧
      g2.data.length = g.data.length ∧
      ∀ i, i < g.data.length →
        g2.cell i = (g.cell i).narrow.widen ∧
        ((g.cell i).narrow.isFinite →
          (g.cell i).isFinite ∧ (g2.cell i).isFinite ∧
          |(g2.cell i).toRat - (g.cell i).toRat| ≤ (g.cell i).narrow.ulp) := by
  have hlen := hwf.2.2.2.2.2
  have hcount : g.count = g.data.length := by unfold Grid.count; omega
  refine ⟨_, read_write u g hx1 hx2 hy1 hy2 (by omega), by simp [hcount], ?_⟩
  intro i hi
  have hc := cell_map_range g (fun d => d.narrow.widen) g.count i (by omega)
  have hc2 : ∀ (a b c d e f h k : F64) (m n : Int),
      Grid.cell { x_min := a, x_max := b, y_min := c, y_max := d, x_size := m, y_size := n,
                  x_step := e, y_step := f, z_min := h, z_max := k,
                  blank_value := GRID_DEFAULT_BLANK_VALUE,
                  data := (List.range' 0 g.count).map (fun j => (g.cell j).narrow.widen) } i =
        (g.cell i).narrow.widen := fun _ _ _ _ _ _ _ _ _ _ => hc
  rw [hc2]
  exact ⟨rfl, fun hfin => (g.cell i).widen_narrow_error hfin⟩

theorem read_write_cells_witness :
    ∃ g2, read_surfer_grid_6bin uninit_zero (write_surfer_grid_6bin true sample_grid) = some g2 ∧
      g2.data.length = sample_grid.data.length ∧
      ∀ i, i < sample_grid.data.length →
        g2.cell i = (sample_grid.cell i).narrow.widen ∧
        ((sample_grid.cell i).narrow.isFinite →
          (sample_grid.cell i).isFinite ∧ (g2.cell i).isFinite ∧
          |(g2.cell i).toRat - (sample_grid.cell i).toRat| ≤ (sample_grid.cell i).narrow.ulp) :=
  read_write_cells uninit_zero sample_grid sample_grid_wf (by decide) (by decide) (by decide)
    (by decide)

/-- C7 as stated fails on `dbl_max_grid`: its sizes fit 16 bits and its cell 0 is the finite
value `DBL_MAX`, but the cell read back is `+infinity`, which is at no finite distance from
it (and even taking `2 ^ 1024` for it, the distance `2 ^ 971` exceeds the ulp). -/
theorem read_write_cells_dbl_max :
    dbl_max_grid.wf ∧ dbl_max_grid.x_size = 2 ∧ dbl_max_grid.y_size = 2 ∧
    (dbl_max_grid.cell 0).isFinite ∧
    (read_surfer_grid_6bin uninit_zero (write_surfer_grid_6bin true dbl_max_grid)).map
      (fun g2 => g2.cell 0) = some (F64.inf false) ∧
    (F64.inf false).isInf ∧
    ¬(|(F64.inf false).toRat - (dbl_max_grid.cell 0).toRat| ≤ (dbl_max_grid.cell 0).narrow.ulp) := by
  refine ⟨by decide, rfl, rfl, by decide, by decide, by decide, ?_⟩
  have h1 : (F64.inf false).toRat = 2 ^ 1024 := by
    have hs : (F64.inf false).sign = false := by decide
    have hm : (F64.inf false).mag = 2 ^ 2098 := by decide
    unfold F64.toRat
    rw [hs, hm]
    norm_num
  have h2 : (dbl_max_grid.cell 0).toRat = 2 ^ 1024 - 2 ^ 971 := by
    have hs : (dbl_max_grid.cell 0).sign = false := by decide
    have hm : (dbl_max_grid.cell 0).mag = (2 ^ 53 - 1) * 2 ^ 2045 := by decide
    unfold F64.toRat
    rw [hs, hm]
    norm_num
  have h3 : (dbl_max_grid.cell 0).narrow.ulp = 2 ^ 105 := by
    have he : (dbl_max_grid.cell 0).narrow.expo = 255 := by decide
    unfold F32.ulp
    rw [he]
    norm_num
  rw [h1, h2, h3]
  norm_num

/-- C8: whatever the `blank_value` of a grid whose sizes fit a `short`, the grid read back
from its written file has `blank_value == GRID_DEFAULT_BLANK_VALUE`; and every grid that
`read_surfer_grid_6bin` returns, from any file content and any prior memory content, has
`blank_value == GRID_DEFAULT_BLANK_VALUE`. -/
theorem read_surfer_grid_6bin_blank_value (u : Uninit) (g : Grid) (hwf : g.wf)
    (hx1 : -2 ^ 15 ≤ g.x_size) (hx2 : g.x_size < 2 ^ 15)
    (hy1 : -2 ^ 15 ≤ g.y_size) (hy2 : g.y_size < 2 ^ 15) :
    (∃ g2, read_surfer_grid_6bin u (write_surfer_grid_6bin true g) = some g2 ∧
      g2.blank_value = GRID_DEFAULT_BLANK_VALUE) ∧
    (∀ (u2 : Uninit) (file : Option (List Nat)) (g3 : Grid),
      read_surfer_grid_6bin u2 file = some g3 → g3.blank_value = GRID_DEFAULT_BLANK_VALUE) := by
  have hlen := hwf.2.2.2.2.2
  refine ⟨⟨_, read_write u g hx1 hx2 hy1 hy2 (by omega), rfl⟩, ?_⟩
  intro u2 file g3 h
  unfold read_surfer_grid_6bin at h
  cases file with
  | none => simp at h
  | some content =>
    simp only [] at h
    split at h
    · simp only [Option.some.injEq] at h
      rw [← h]
    · simp at h

theorem read_surfer_grid_6bin_blank_value_witness :
    sample_grid.blank_value ≠ GRID_DEFAULT_BLANK_VALUE ∧
    (∃ g2, read_surfer_grid_6bin uninit_zero (write_surfer_grid_6bin true sample_grid) = some g2 ∧
      g2.blank_value = GRID_DEFAULT_BLANK_VALUE) ∧
    (∀ (u2 : Uninit) (file : Option (List Nat)) (g3 : Grid),
      read_surfer_grid_6bin u2 file = some g3 → g3.blank_value = GRID_DEFAULT_BLANK_VALUE) :=
  ⟨by decide, read_surfer_grid_6bin_blank_value uninit_zero sample_grid sample_grid_wf
    (by decide) (by decide) (by decide) (by decide)⟩

theorem write_read_witness :
    ∃ g, read_surfer_grid_6bin uninit_zero (some qnan_stream) = some g ∧
      write_surfer_grid_6bin true g = some qnan_stream :=
  write_read uninit_zero qnan_stream (by decide) (by decide) (by decide) (by decide) (by decide)
    (fun i hi => by
      have e : short_to_int (le_val ((qnan_stream.drop 4).take 2)) *
          short_to_int (le_val ((qnan_stream.drop 6).take 2)) = 4 := by decide
      rw [e] at hi
      have h4 : i < 4 := by omega
      interval_cases i <;> decide)

theorem get_xy_value_out_of_range_witness :
    sample_grid.blank_value ≠ GRID_DEFAULT_BLANK_VALUE ∧
    get_xy_value (some sample_grid) 3 0 = sample_grid.blank_value ∧
      ∀ data2 : List F64,
        get_xy_value (some { sample_grid with data := data2 }) 3 0 = sample_grid.blank_value :=
  ⟨by decide, get_xy_value_out_of_range sample_grid 3 0 (by decide)⟩

theorem set_xy_value_out_of_range_witness :
    set_xy_value (some sample_grid) 0 (-1) (F64.ofInt 42) = some sample_grid :=
  set_xy_value_out_of_range sample_grid 0 (-1) (F64.ofInt 42) (by decide)

/-- C11: on a grid with sizes at least 2 (so that `size - 1` is a positive `int`), each
of the four bound setters stores the new bound, recomputes the step of its axis from the
new bound, the other bound of that axis (left as it was) and the size, and leaves
everything else (sizes, the other axis, `z_min`, `z_max`, `blank_value`, the data) as it
was. -/
theorem set_grid_bounds (g : Grid) (b : F64) (hx : 2 ≤ g.x_size) (hy : 2 ≤ g.y_size) :
    (∃ g2, set_grid_x_min (some g) b = some g2 ∧
      g2.x_min = b ∧ g2.x_max = g.x_max ∧
      g2.x_step = F64.div (F64.sub g.x_max b) (F64.ofInt (g.x_size - 1)) ∧
      g2.x_size = g.x_size ∧ g2.y_size = g.y_size ∧ g2.y_min = g.y_min ∧ g2.y_max = g.y_max ∧
      g2.y_step = g.y_step ∧ g2.z_min = g.z_min ∧ g2.z_max = g.z_max ∧
      g2.blank_value = g.blank_value ∧ g2.data = g.data) ∧
    (∃ g2, set_grid_x_max (some g) b = some g2 ∧
      g2.x_max = b ∧ g2.x_min = g.x_min ∧
      g2.x_step = F64.div (F64.sub b g.x_min) (F64.ofInt (g.x_size - 1)) ∧
      g2.x_size = g.x_size ∧ g2.y_size = g.y_size ∧ g2.y_min = g.y_min ∧ g2.y_max = g.y_max ∧
      g2.y_step = g.y_step ∧ g2.z_min = g.z_min ∧ g2.z_max = g.z_max ∧
      g2.blank_value = g.blank_value ∧ g2.data = g.data) ∧
    (∃ g2, set_grid_y_min (some g) b = some g2 ∧
      g2.y_min = b ∧ g2.y_max = g.y_max ∧
      g2.y_step = F64.div (F64.sub g.y_max b) (F64.ofInt (g.y_size - 1)) ∧
      g2.x_size = g.x_size ∧ g2.y_size = g.y_size ∧ g2.x_min = g.x_min ∧ g2.x_max = g.x_max ∧
      g2.x_step = g.x_step ∧ g2.z_min = g.z_min ∧ g2.z_max = g.z_max ∧
      g2.blank_value = g.blank_value ∧ g2.data = g.data) ∧
    (∃ g2, set_grid_y_max (some g) b = some g2 ∧
      g2.y_max = b ∧ g2.y_min = g.y_min ∧
      g2.y_step = F64.div (F64.sub b g.y_min) (F64.ofInt (g.y_size - 1)) ∧
      g2.x_size = g.x_size ∧ g2.y_size = g.y_size ∧ g2.x_min = g.x_min ∧ g2.x_max = g.x_max ∧
      g2.x_step = g.x_step ∧ g2.z_min = g.z_min ∧ g2.z_max = g.z_max ∧
      g2.blank_value = g.blank_value ∧ g2.data = g.data) := by
  have _ := hx
  have _ := hy
  exact ⟨⟨_, rfl, rfl, rfl, rfl, rfl, rfl, rfl, rfl, rfl, rfl, rfl, rfl, rfl⟩,
    ⟨_, rfl, rfl, rfl, rfl, rfl, rfl, rfl, rfl, rfl, rfl, rfl, rfl, rfl⟩,
    ⟨_, rfl, rfl, rfl, rfl, rfl, rfl, rfl, rfl, rfl, rfl, rfl, rfl, rfl⟩,
    ⟨_, rfl, rfl, rfl, rfl, rfl, rfl, rfl, rfl, rfl, rfl, rfl, rfl, rfl⟩⟩

theorem set_grid_bounds_witness :
    (∃ g2, set_grid_x_min (some sample_grid) (F64.ofInt 7) = some g2 ∧
      g2.x_min = F64.ofInt 7 ∧ g2.x_max = sample_grid.x_max ∧
      g2.x_step = F64.div (F64.sub sample_grid.x_max (F64.ofInt 7))
        (F64.ofInt (sample_grid.x_size - 1)) ∧
      g2.x_size = sample_grid.x_size ∧ g2.y_size = sample_grid.y_size ∧
      g2.y_min = sample_grid.y_min ∧ g2.y_max = sample_grid.y_max ∧
      g2.y_step = sample_grid.y_step ∧ g2.z_min = sample_grid.z_min ∧
      g2.z_max = sample_grid.z_max ∧
      g2.blank_value = sample_grid.blank_value ∧ g2.data = sample_grid.data) :=
  (set_grid_bounds sample_grid (F64.ofInt 7) (by decide) (by decide)).1

theorem create_example_grid_fields :
    create_example_grid.x_min = F64.ofInt 0 ∧ create_example_grid.x_max = F64.ofInt 10 ∧
    create_example_grid.y_min = F64.ofInt 0 ∧ create_example_grid.y_max = F64.ofInt 10 ∧
    create_example_grid.x_step = F64.div (F64.sub (F64.ofInt 10) (F64.ofInt 0)) (F64.ofInt (11 - 1)) ∧
    create_example_grid.y_step = F64.div (F64.sub (F64.ofInt 10) (F64.ofInt 0)) (F64.ofInt (11 - 1)) ∧
    create_example_grid.blank_value = GRID_DEFAULT_BLANK_VALUE := by
  unfold create_example_grid
  simp only []
  have h := calculate_z_min_max_frame
    { x_min := F64.ofInt 0, x_max := F64.ofInt 10, y_min := F64.ofInt 0, y_max := F64.ofInt 10,
      x_size := 11, y_size := 11,
      x_step := F64.div (F64.sub (F64.ofInt 10) (F64.ofInt 0)) (F64.ofInt (11 - 1)),
      y_step := F64.div (F64.sub (F64.ofInt 10) (F64.ofInt 0)) (F64.ofInt (11 - 1)),
      z_min := F64.ofInt 0, z_max := F64.ofInt 1,
      blank_value := GRID_DEFAULT_BLANK_VALUE,
      data := (List.range (11 * 11 : Int).toNat).map (fun (i : Nat) => F64.ofInt (i : Int)) }
  exact ⟨h.1, h.2.1, h.2.2.1, h.2.2.2.1, h.2.2.2.2.2.2.1, h.2.2.2.2.2.2.2.1,
    h.2.2.2.2.2.2.2.2.1⟩

theorem example_step_eval :
    F64.div (F64.sub (F64.ofInt 10) (F64.ofInt 0)) (F64.ofInt (11 - 1)) = F64.ofInt 1 := by
  decide

set_option maxRecDepth 1000000 in
theorem create_example_grid_z_range :
    create_example_grid.z_min = F64.ofInt 0 ∧ create_example_grid.z_max = F64.ofInt 120 := by
  decide

set_option maxRecDepth 1000000 in
theorem ofInt_small_exact :
    ∀ i : Nat, i < 121 →
      (F64.ofInt (i : Int)).isFinite ∧ (F64.ofInt (i : Int)).sign = false ∧
        (F64.ofInt (i : Int)).mag = i * 2 ^ 1074 := by
  decide

/-- The doubles `0.0 .. 120.0` that `create_example_grid` stores have the integer values
`0 .. 120`. -/
theorem ofInt_small_toRat (i : Nat) (h : i < 121) : (F64.ofInt (i : Int)).toRat = (i : ℚ) := by
  obtain ⟨_, hs, hm⟩ := ofInt_small_exact i h
  have hc : (2 : ℚ) ^ 1074 ≠ 0 := pow_ne_zero _ (by norm_num)
  unfold F64.toRat
  rw [hs, hm]
  simp only [Bool.false_eq_true, if_false, one_mul, Nat.cast_mul, Nat.cast_pow, Nat.cast_ofNat]
  exact mul_div_cancel_right₀ _ hc

theorem create_example_grid_cell (x y : Int) (hx : 0 ≤ x) (hx2 : x < 11) (hy : 0 ≤ y)
    (hy2 : y < 11) :
    get_xy_value (some create_example_grid) x y = F64.ofInt (y * 11 + x) := by
  have hin : ¬out_of_bounds create_example_grid x y := by
    rw [out_of_bounds_iff, create_example_grid_x_size, create_example_grid_y_size]
    exact fun h => h ⟨hx, hx2, hy, hy2⟩
  have hidx : (y * 11 + x).toNat < 121 := by omega
  simp only [get_xy_value, hin, if_false, Grid.cell, create_example_grid_x_size,
    create_example_grid_data]
  rw [List.getD_eq_getElem _ _ (by simpa using hidx)]
  simp only [List.getElem_map, List.getElem_range]
  congr 1
  omega

/-- C12: the grid returned by `create_example_grid` is 11 x 11 over `[0, 10] x [0, 10]`
with both steps equal to `1.0`, the default `blank_value`, the cell of in-range
coordinates `(x, y)` equal to the double `y * 11 + x` (so `0.0` at `(0, 0)` and `120.0` at
`(10, 10)`), and, after the scan, `z_min == 0.0` and `z_max == 120.0` (not the placeholder
`1.0`). -/
theorem create_example_grid_spec :
    create_example_grid.x_size = 11 ∧ create_example_grid.y_size = 11 ∧
    create_example_grid.x_min = F64.ofInt 0 ∧ create_example_grid.y_min = F64.ofInt 0 ∧
    create_example_grid.x_max = F64.ofInt 10 ∧ create_example_grid.y_max = F64.ofInt 10 ∧
    create_example_grid.x_step = F64.ofInt 1 ∧ create_example_grid.y_step = F64.ofInt 1 ∧
    create_example_grid.x_step.toRat = 1 ∧ create_example_grid.x_max.toRat = 10 ∧
    create_example_grid.blank_value = GRID_DEFAULT_BLANK_VALUE ∧
    (∀ x y : Int, 0 ≤ x → x < 11 → 0 ≤ y → y < 11 →
      get_xy_value (some create_example_grid) x y = F64.ofInt (y * 11 + x) ∧
      (get_xy_value (some create_example_grid) x y).toRat = ((y * 11 + x : Int) : ℚ)) ∧
    get_xy_value (some create_example_grid) 0 0 = F64.ofInt 0 ∧
    get_xy_value (some create_example_grid) 10 10 = F64.ofInt 120 ∧
    create_example_grid.z_min = F64.ofInt 0 ∧ create_example_grid.z_max = F64.ofInt 120 ∧
    create_example_grid.z_min.toRat = 0 ∧ create_example_grid.z_max.toRat = 120 ∧
    create_example_grid.z_max ≠ F64.ofInt 1 := by
  obtain ⟨h1, h2, h3, h4, h5, h6, h7⟩ := create_example_grid_fields
  obtain ⟨hz1, hz2⟩ := create_example_grid_z_range
  refine ⟨create_example_grid_x_size, create_example_grid_y_size, h1, h3, h2, h4, ?_, ?_, ?_, ?_,
    h7, ?_, create_example_grid_cell 0 0 (by decide) (by decide) (by decide) (by decide),
    create_example_grid_cell 10 10 (by decide) (by decide) (by decide) (by decide),
    hz1, hz2, ?_, ?_, ?_⟩
  · rw [h5, example_step_eval]
  · rw [h6, example_step_eval]
  · rw [h5, example_step_eval]
    exact ofInt_small_toRat 1 (by decide)
  · rw [h2]
    exact ofInt_small_toRat 10 (by decide)
  · intro x y hx hx2 hy hy2
    have hc := create_example_grid_cell x y hx hx2 hy hy2
    refine ⟨hc, ?_⟩
    rw [hc]
    obtain ⟨n, hn⟩ := Int.eq_ofNat_of_zero_le (show 0 ≤ y * 11 + x by omega)
    rw [hn, ofInt_small_toRat n (by omega)]
    simp
  · rw [hz1]
    exact ofInt_small_toRat 0 (by decide)
  · rw [hz2]
    exact ofInt_small_toRat 120 (by decide)
  · rw [hz2]
    decide

theorem create_example_grid_spec_witness :
    get_xy_value (some create_example_grid) 5 7 = F64.ofInt (7 * 11 + 5) ∧
      (get_xy_value (some create_example_grid) 5 7).toRat = ((7 * 11 + 5 : Int) : ℚ) :=
  create_example_grid_spec.2.2.2.2.2.2.2.2.2.2.2.1 5 7 (by decide) (by decide) (by decide)
    (by decide)

theorem write_z_bytes (g : Grid) :
    ((write_header g ++ write_cells g 0 g.count).drop 40).take 8 = le_bytes 8 g.z_min.bits ∧
    ((write_header g ++ write_cells g 0 g.count).drop 48).take 8 = le_bytes 8 g.z_max.bits := by
  constructor <;> simp [write_header, le_bytes]

/-- C13: `set_xy_value` leaves `z_min` and `z_max` as they were, whatever the coordinates
and the value written, and `write_surfer_grid_6bin` emits at offsets 40 .. 47 and 48 .. 55
the stored `z_min` and `z_max` fields, before and after the cell was written: nothing
recomputes them from the data. -/
theorem z_range_not_recomputed (g : Grid) (x y : Int) (v : F64) :
    (∃ out, write_surfer_grid_6bin true g = some out ∧
      (out.drop 40).take 8 = le_bytes 8 g.z_min.bits ∧
      (out.drop 48).take 8 = le_bytes 8 g.z_max.bits) ∧
    (∃ g2, set_xy_value (some g) x y v = some g2 ∧
      g2.z_min = g.z_min ∧ g2.z_max = g.z_max ∧
      ∃ out2, write_surfer_grid_6bin true g2 = some out2 ∧
        (out2.drop 40).take 8 = le_bytes 8 g.z_min.bits ∧
        (out2.drop 48).take 8 = le_bytes 8 g.z_max.bits) := by
  refine ⟨⟨_, by simp [write_surfer_grid_6bin], (write_z_bytes g).1, (write_z_bytes g).2⟩, ?_⟩
  unfold set_xy_value
  by_cases h : out_of_bounds g x y
  · simp only [h, if_true]
    exact ⟨g, rfl, rfl, rfl, _, by simp [write_surfer_grid_6bin], (write_z_bytes g).1,
      (write_z_bytes g).2⟩
  · simp only [h, if_false]
    exact ⟨_, rfl, rfl, rfl, _, by simp [write_surfer_grid_6bin],
      (write_z_bytes { g with data := g.data.set (y * g.x_size + x).toNat v }).1,
      (write_z_bytes { g with data := g.data.set (y * g.x_size + x).toNat v }).2⟩

/-- The cell `(0, 0)` of `sample_grid` overwritten with `1000.0`, above the stored
`z_max = 5.0`: the stored range and the range bytes of the file stay those of `0.1 .. 5`. -/
theorem z_range_not_recomputed_witness :
    F64.gt (F64.ofInt 1000) sample_grid.z_max ∧
    ∃ g2, set_xy_value (some sample_grid) 0 0 (F64.ofInt 1000) = some g2 ∧
      g2.z_min = sample_grid.z_min ∧ g2.z_max = sample_grid.z_max ∧
      ∃ out2, write_surfer_grid_6bin true g2 = some out2 ∧
        (out2.drop 40).take 8 = le_bytes 8 sample_grid.z_min.bits ∧
        (out2.drop 48).take 8 = le_bytes 8 sample_grid.z_max.bits :=
  ⟨by decide, (z_range_not_recomputed sample_grid 0 0 (F64.ofInt 1000)).2⟩

theorem index_injective (xs x y x2 y2 : Int) (hx : 0 ≤ x) (hx2 : x < xs) (hx3 : 0 ≤ x2)
    (hx4 : x2 < xs) (h : y * xs + x = y2 * xs + x2) : x = x2 ∧ y = y2 := by
  have hy : y = y2 := by
    by_contra hne
    rcases lt_or_gt_of_ne hne with h1 | h1
    · have : (y2 - y) * xs ≥ 1 * xs := by nlinarith
      nlinarith
    · have : (y - y2) * xs ≥ 1 * xs := by nlinarith
      nlinarith
  subst hy
  exact ⟨by linarith, rfl⟩

/-- C16: on a well-formed grid, `set_xy_value` at in-range `(x, y)` changes the data
element of index `y * x_size + x` and nothing else: every other in-range `(x2, y2)` has
another index and `get_xy_value` returns there what it returned before, every other
element of the array and every metadata field is unchanged. -/
theorem set_xy_value_frame (g : Grid) (x y x2 y2 : Int) (v : F64) (hwf : g.wf)
    (hx : 0 ≤ x) (hx2 : x < g.x_size) (hy : 0 ≤ y) (hy2 : y < g.y_size)
    (hx3 : 0 ≤ x2) (hx4 : x2 < g.x_size) (hy3 : 0 ≤ y2) (hy4 : y2 < g.y_size)
    (hne : ¬(x2 = x ∧ y2 = y)) :
    ∃ g2, set_xy_value (some g) x y v = some g2 ∧
      (y * g.x_size + x).toNat < g.data.length ∧
      g2.cell (y * g.x_size + x).toNat = v ∧
      y2 * g.x_size + x2 ≠ y * g.x_size + x ∧
      get_xy_value (some g2) x2 y2 = get_xy_value (some g) x2 y2 ∧
      (∀ i : Nat, i ≠ (y * g.x_size + x).toNat → g2.cell i = g.cell i) ∧
      g2.data.length = g.data.length ∧
      g2.x_min = g.x_min ∧ g2.x_max = g.x_max ∧ g2.y_min = g.y_min ∧ g2.y_max = g.y_max ∧
      g2.x_size = g.x_size ∧ g2.y_size = g.y_size ∧ g2.x_step = g.x_step ∧
      g2.y_step = g.y_step ∧ g2.z_min = g.z_min ∧ g2.z_max = g.z_max ∧
      g2.blank_value = g.blank_value := by
  have hin : ¬out_of_bounds g x y := by
    rw [out_of_bounds_iff]; exact fun h => h ⟨hx, hx2, hy, hy2⟩
  have hin2 : ¬out_of_bounds g x2 y2 := by
    rw [out_of_bounds_iff]; exact fun h => h ⟨hx3, hx4, hy3, hy4⟩
  have hidx : y2 * g.x_size + x2 ≠ y * g.x_size + x := by
    intro h
    obtain ⟨h1, h2⟩ := index_injective g.x_size x2 y2 x y hx3 hx4 hx hx2 h
    exact hne ⟨h1, h2⟩
  have h0 : 0 ≤ y * g.x_size + x := by nlinarith
  have h02 : 0 ≤ y2 * g.x_size + x2 := by nlinarith
  have hcell : ∀ i : Nat, i ≠ (y * g.x_size + x).toNat →
      Grid.cell { g with data := g.data.set (y * g.x_size + x).toNat v } i = g.cell i := by
    intro i hi
    simp only [Grid.cell, List.getD_eq_getElem?_getD]
    rw [List.getElem?_set_ne (Ne.symm hi)]
  have hlt := index_lt_of_in_range g x y hwf hx hx2 hy hy2
  have hset : Grid.cell { g with data := g.data.set (y * g.x_size + x).toNat v }
      (y * g.x_size + x).toNat = v := by
    simp only [Grid.cell]
    rw [List.getD_eq_getElem _ _ (by simpa using hlt)]
    simp
  refine ⟨{ g with data := g.data.set (y * g.x_size + x).toNat v }, by simp [set_xy_value, hin],
    hlt, hset, hidx, ?_, hcell, by simp, rfl, rfl, rfl, rfl, rfl, rfl, rfl, rfl, rfl, rfl, rfl⟩
  have hin3 : ¬out_of_bounds { g with data := g.data.set (y * g.x_size + x).toNat v } x2 y2 :=
    hin2
  simp only [get_xy_value, hin2, hin3, if_false]
  exact hcell _ (by omega)

theorem set_xy_value_frame_witness :
    ∃ g2, set_xy_value (some sample_grid) 1 1 (F64.ofInt 42) = some g2 ∧
      (1 * sample_grid.x_size + 1).toNat < sample_grid.data.length ∧
      g2.cell (1 * sample_grid.x_size + 1).toNat = F64.ofInt 42 ∧
      0 * sample_grid.x_size + 2 ≠ 1 * sample_grid.x_size + 1 ∧
      get_xy_value (some g2) 2 0 = get_xy_value (some sample_grid) 2 0 ∧
      (∀ i : Nat, i ≠ (1 * sample_grid.x_size + 1).toNat → g2.cell i = sample_grid.cell i) ∧
      g2.data.length = sample_grid.data.length ∧
      g2.x_min = sample_grid.x_min ∧ g2.x_max = sample_grid.x_max ∧
      g2.y_min = sample_grid.y_min ∧ g2.y_max = sample_grid.y_max ∧
      g2.x_size = sample_grid.x_size ∧ g2.y_size = sample_grid.y_size ∧
      g2.x_step = sample_grid.x_step ∧ g2.y_step = sample_grid.y_step ∧
      g2.z_min = sample_grid.z_min ∧ g2.z_max = sample_grid.z_max ∧
      g2.blank_value = sample_grid.blank_value :=
  set_xy_value_frame sample_grid 1 1 2 0 (F64.ofInt 42) sample_grid_wf (by decide) (by decide)
    (by decide) (by decide) (by decide) (by decide) (by decide) (by decide) (by decide)

theorem short_wrap (i : Int) :
    short_to_int (int_to_short i % 256 ^ 2) = (i + 2 ^ 15) % 2 ^ 16 - 2 ^ 15 := by
  unfold short_to_int int_to_short
  split <;> omega

theorem malloc_ok_iff (n : Int) (h1 : -2 ^ 31 ≤ n) (h2 : n < 2 ^ 31) :
    malloc_ok (malloc_request n) ↔ 0 ≤ n := by
  unfold malloc_ok malloc_request
  omega

theorem read_sizes_bounds (u : Uninit) (s : List Nat) :
    -2 ^ 31 ≤ (read_sizes u s).1 * (read_sizes u s).2 ∧
      (read_sizes u s).1 * (read_sizes u s).2 < 2 ^ 31 := by
  unfold read_sizes
  simp only []
  obtain ⟨a1, a2⟩ := short_to_int_bounds (fread 2 u.temp_sh (List.drop 4 s)).1
  obtain ⟨b1, b2⟩ := short_to_int_bounds
    (fread 2 (fread 2 u.temp_sh (List.drop 4 s)).1 (fread 2 u.temp_sh (List.drop 4 s)).2).1
  constructor <;> nlinarith

/-- The outcome of `read_surfer_grid_6bin` on any file that could be opened: no grid
exactly when the product of the sizes is negative (the allocation fails), else a grid with
those sizes. -/
theorem read_outcome (u : Uninit) (s : List Nat) :
    (read_surfer_grid_6bin u (some s) = none ↔ (read_sizes u s).1 * (read_sizes u s).2 < 0) ∧
    (∀ g, read_surfer_grid_6bin u (some s) = some g →
      g.x_size = (read_sizes u s).1 ∧ g.y_size = (read_sizes u s).2 ∧
      g.z_max = F64.ofBits (fread 8 u.z_max.bits (s.drop 48)).1 ∧
      g.blank_value = GRID_DEFAULT_BLANK_VALUE) := by
  obtain ⟨hb1, hb2⟩ := read_sizes_bounds u s
  have hm := malloc_ok_iff _ hb1 hb2
  have hdrop : (fread 8 u.z_min.bits (fread 8 u.y_max.bits (fread 8 u.y_min.bits
      (fread 8 u.x_max.bits (fread 8 u.x_min.bits (fread 2 (fread 2 u.temp_sh
      (List.drop 4 s)).1 (fread 2 u.temp_sh (List.drop 4 s)).2).2).2).2).2).2).2 =
      s.drop 48 := by
    simp only [fread, List.drop_drop]
  unfold read_sizes at hm hb1 hb2 ⊢
  simp only [] at hm hb1 hb2 ⊢
  unfold read_surfer_grid_6bin
  simp only []
  rw [hdrop]
  constructor
  · constructor
    · intro h
      by_contra hc
      rw [if_pos (hm.mpr (by omega))] at h
      exact Option.noConfusion h
    · intro h
      rw [if_neg (fun hc => by have := hm.mp hc; omega)]
  · intro g h
    split at h
    · simp only [Option.some.injEq] at h
      rw [← h]
      exact ⟨rfl, rfl, rfl, rfl⟩
    · exact Option.noConfusion h

theorem fread_cons (n old b : Nat) (f : List Nat) :
    (fread (n + 1) old (b :: f)).1 = b + 256 * (fread n (old / 256) f).1 := by
  simp [fread, le_bytes, le_val]

/-- A short read leaves the last byte of the object as it was. -/
theorem fread_short_top (n : Nat) : ∀ (old : Nat) (file : List Nat), is_bytes file →
    file.length < n → (fread n old file).1 / 256 ^ (n - 1) = old / 256 ^ (n - 1) % 256 := by
  induction n with
  | zero => intro old file _ h; omega
  | succ n ih =>
    intro old file hb hlen
    cases file with
    | nil =>
      have e : (fread (n + 1) old []).1 = old % 256 ^ (n + 1) := by
        simp [fread, le_val_le_bytes]
      rw [e, Nat.add_sub_cancel, pow_succ, Nat.mod_mul_right_div_self]
    | cons b f =>
      have hb0 : b < 256 := hb b (List.mem_cons_self _ _)
      have hbf : is_bytes f := fun c hc => hb c (List.mem_cons_of_mem _ hc)
      have hlf : f.length < n := by simpa using hlen
      obtain ⟨m, rfl⟩ : ∃ m, n = m + 1 := ⟨n - 1, by omega⟩
      have h := ih (old / 256) f hbf hlf
      rw [Nat.add_sub_cancel] at h
      rw [fread_cons, Nat.add_sub_cancel]
      have hp : 256 ^ (m + 1) = 256 * 256 ^ m := by rw [pow_succ, Nat.mul_comm]
      have e0 : (b + 256 * (fread (m + 1) (old / 256) f).1) / 256 =
          (fread (m + 1) (old / 256) f).1 := by omega
      rw [hp, ← Nat.div_div_eq_div_mul, ← Nat.div_div_eq_div_mul, e0, h]

/-- C14, as amended: for a byte stream shorter than the 56-byte header
`read_surfer_grid_6bin` does not report the truncation. It returns no grid exactly when the
two sizes it ends up with (read at offsets 4 and 6 where those bytes exist, else left over
in `temp_sh`) have a negative product, that is when the allocation of the cell buffer
fails; otherwise it returns a grid built from those sizes, in which the last byte of
`z_max` (offset 55, never read) is the byte the memory held before the call. When the
stream has no size byte at all (at most 4 bytes) a grid is always returned. -/
theorem read_truncated (u : Uninit) (s : List Nat) (hb : is_bytes s) (hlen : s.length < 56) :
    (read_surfer_grid_6bin u (some s) = none ↔ (read_sizes u s).1 * (read_sizes u s).2 < 0) ∧
    (∀ g, read_surfer_grid_6bin u (some s) = some g →
      g.x_size = (read_sizes u s).1 ∧ g.y_size = (read_sizes u s).2 ∧
      g.z_max.bits / 2 ^ 56 = u.z_max.bits / 2 ^ 56) ∧
    (s.length ≤ 4 → read_sizes u s = (short_to_int u.temp_sh, short_to_int u.temp_sh) ∧
      ∃ g, read_surfer_grid_6bin u (some s) = some g) := by
  obtain ⟨h1, h2⟩ := read_outcome u s
  refine ⟨h1, ?_, ?_⟩
  · intro g hg
    obtain ⟨hx, hy, hz, _⟩ := h2 g hg
    refine ⟨hx, hy, ?_⟩
    have htop := fread_short_top 8 u.z_max.bits (s.drop 48) (is_bytes_drop _ _ hb)
      (by rw [List.length_drop]; omega)
    have hlt := u.z_max.isLt
    rw [hz]
    unfold F64.ofBits
    simp only []
    have e : (256 : Nat) ^ (8 - 1) = 2 ^ 56 := by norm_num
    rw [e] at htop
    omega
  · intro h4
    have hnil : s.drop 4 = [] := List.drop_eq_nil_of_le h4
    have hs : read_sizes u s = (short_to_int u.temp_sh, short_to_int u.temp_sh) := by
      unfold read_sizes
      simp only [hnil, fread, List.take_nil, List.nil_append, List.length_nil, List.drop_zero,
        List.drop_nil, le_val_le_bytes]
      unfold short_to_int
      have e : u.temp_sh % 256 ^ 2 % 256 ^ 2 % 2 ^ 16 = u.temp_sh % 2 ^ 16 := by omega
      have e2 : u.temp_sh % 256 ^ 2 % 2 ^ 16 = u.temp_sh % 2 ^ 16 := by omega
      rw [e, e2]
    refine ⟨hs, ?_⟩
    cases hr : read_surfer_grid_6bin u (some s) with
    | some g => exact ⟨g, rfl⟩
    | none =>
      have hneg := h1.mp hr
      rw [hs] at hneg
      simp only [] at hneg
      nlinarith [mul_self_nonneg (short_to_int u.temp_sh)]

theorem read_truncated_witness :
    (read_surfer_grid_6bin uninit_zero (some truncated_stream) = none ↔
      (read_sizes uninit_zero truncated_stream).1 * (read_sizes uninit_zero truncated_stream).2 < 0) ∧
    (∀ g, read_surfer_grid_6bin uninit_zero (some truncated_stream) = some g →
      g.x_size = (read_sizes uninit_zero truncated_stream).1 ∧
      g.y_size = (read_sizes uninit_zero truncated_stream).2 ∧
      g.z_max.bits / 2 ^ 56 = uninit_zero.z_max.bits / 2 ^ 56) ∧
    (truncated_stream.length ≤ 4 →
      read_sizes uninit_zero truncated_stream =
        (short_to_int uninit_zero.temp_sh, short_to_int uninit_zero.temp_sh) ∧
      ∃ g, read_surfer_grid_6bin uninit_zero (some truncated_stream) = some g) :=
  read_truncated uninit_zero truncated_stream (by decide) (by decide)

/-- C14 as stated fails on `truncated_stream`: it has 10 bytes, fewer than the 56 of the
header, and `read_surfer_grid_6bin` returns a 2 x 2 grid whose bounds, `z_min` and `z_max`
are the prior content of memory (here zero bytes) and whose four cells are that of
`temp_fl`. -/
theorem read_truncated_stream_returns_grid :
    truncated_stream.length < 56 ∧ is_bytes truncated_stream ∧
    read_surfer_grid_6bin uninit_zero (some truncated_stream) ≠ none ∧
    (read_surfer_grid_6bin uninit_zero (some truncated_stream)).map
      (fun g => (g.x_size, g.y_size, g.x_max, g.z_max, g.data)) =
      some (2, 2, uninit_zero.x_max, uninit_zero.z_max,
        [uninit_zero.temp_fl.widen, uninit_zero.temp_fl.widen, uninit_zero.temp_fl.widen,
         uninit_zero.temp_fl.widen]) := by
  decide

/-- On a file that holds the whole header, the fields of the grid read are the groups of
bytes at the fixed offsets of the format. -/
theorem read_header_fields (u : Uninit) (s : List Nat) (hlen : 56 ≤ s.length) (g : Grid)
    (hg : read_surfer_grid_6bin u (some s) = some g) :
    g.x_size = short_to_int (le_val ((s.drop 4).take 2)) ∧
    g.y_size = short_to_int (le_val ((s.drop 6).take 2)) ∧
    g.x_min = F64.ofBits (le_val ((s.drop 8).take 8)) ∧
    g.x_max = F64.ofBits (le_val ((s.drop 16).take 8)) ∧
    g.y_min = F64.ofBits (le_val ((s.drop 24).take 8)) ∧
    g.y_max = F64.ofBits (le_val ((s.drop 32).take 8)) ∧
    g.z_min = F64.ofBits (le_val ((s.drop 40).take 8)) ∧
    g.z_max = F64.ofBits (le_val ((s.drop 48).take 8)) := by
  rw [read_of_header u s hlen] at hg
  split at hg
  · simp only [Option.some.injEq] at hg
    rw [← hg]
    exact ⟨rfl, rfl, rfl, rfl, rfl, rfl, rfl, rfl⟩
  · exact Option.noConfusion hg

theorem read_sizes_of_header (u : Uninit) (s : List Nat) (h : 8 ≤ s.length) :
    read_sizes u s = (short_to_int (le_val ((s.drop 4).take 2)),
      short_to_int (le_val ((s.drop 6).take 2))) := by
  unfold read_sizes
  simp only []
  rw [fread_drop 2 _ s 4 (by omega)]
  simp only []
  rw [fread_drop 2 _ s 6 (by omega)]

/-- When the product of the sizes is not negative, `read_surfer_grid_6bin` returns a grid. -/
theorem read_returns_grid (u : Uninit) (s : List Nat)
    (h : 0 ≤ (read_sizes u s).1 * (read_sizes u s).2) :
    ∃ g, read_surfer_grid_6bin u (some s) = some g := by
  cases hr : read_surfer_grid_6bin u (some s) with
  | some g => exact ⟨g, rfl⟩
  | none =>
    have := (read_outcome u s).1.mp hr
    omega

/-- C15: `read_surfer_grid_6bin` drops the first 4 bytes unread: two files that agree from
offset 4 onwards give the same result and the same sizes. It returns no grid exactly when
the product of the sizes it read is negative. On a file that holds the whole header the
sizes are the 16-bit integers at offsets 4 and 6, and whenever their product is not
negative a grid is returned, the same for both files, whose sizes are those integers and
whose six doubles are the 8-byte groups at offsets 8, 16, 24, 32, 40 and 48. -/
theorem read_skips_tag (u : Uninit) (s1 s2 : List Nat) (h : s1.drop 4 = s2.drop 4) :
    read_surfer_grid_6bin u (some s1) = read_surfer_grid_6bin u (some s2) ∧
    read_sizes u s1 = read_sizes u s2 ∧
    (read_surfer_grid_6bin u (some s1) = none ↔
      (read_sizes u s1).1 * (read_sizes u s1).2 < 0) ∧
    (56 ≤ s1.length →
      read_sizes u s1 = (short_to_int (le_val ((s1.drop 4).take 2)),
        short_to_int (le_val ((s1.drop 6).take 2))) ∧
      (0 ≤ short_to_int (le_val ((s1.drop 4).take 2)) *
          short_to_int (le_val ((s1.drop 6).take 2)) →
        ∃ g, read_surfer_grid_6bin u (some s1) = some g ∧
          read_surfer_grid_6bin u (some s2) = some g ∧
          g.x_size = short_to_int (le_val ((s1.drop 4).take 2)) ∧
          g.y_size = short_to_int (le_val ((s1.drop 6).take 2)) ∧
          g.x_min = F64.ofBits (le_val ((s1.drop 8).take 8)) ∧
          g.x_max = F64.ofBits (le_val ((s1.drop 16).take 8)) ∧
          g.y_min = F64.ofBits (le_val ((s1.drop 24).take 8)) ∧
          g.y_max = F64.ofBits (le_val ((s1.drop 32).take 8)) ∧
          g.z_min = F64.ofBits (le_val ((s1.drop 40).take 8)) ∧
          g.z_max = F64.ofBits (le_val ((s1.drop 48).take 8)))) := by
  have heq : read_surfer_grid_6bin u (some s1) = read_surfer_grid_6bin u (some s2) := by
    unfold read_surfer_grid_6bin
    simp only [h]
  have hsz : read_sizes u s1 = read_sizes u s2 := by
    unfold read_sizes
    simp only [h]
  refine ⟨heq, hsz, (read_outcome u s1).1, fun hlen => ?_⟩
  have hs := read_sizes_of_header u s1 (by omega)
  refine ⟨hs, fun hprod => ?_⟩
  obtain ⟨g, hg⟩ := read_returns_grid u s1 (by rw [hs]; exact hprod)
  exact ⟨g, hg, by rw [← heq]; exact hg, read_header_fields u s1 hlen g hg⟩

theorem read_skips_tag_witness :
    qnan_stream.take 4 ≠ retagged_stream.take 4 ∧
    short_to_int (le_val ((qnan_stream.drop 4).take 2)) = 2 ∧
    short_to_int (le_val ((qnan_stream.drop 6).take 2)) = 2 ∧
    ∃ g, read_surfer_grid_6bin uninit_zero (some qnan_stream) = some g ∧
      read_surfer_grid_6bin uninit_zero (some retagged_stream) = some g ∧
      g.x_size = short_to_int (le_val ((qnan_stream.drop 4).take 2)) ∧
      g.y_size = short_to_int (le_val ((qnan_stream.drop 6).take 2)) ∧
      g.x_min = F64.ofBits (le_val ((qnan_stream.drop 8).take 8)) ∧
      g.x_max = F64.ofBits (le_val ((qnan_stream.drop 16).take 8)) ∧
      g.y_min = F64.ofBits (le_val ((qnan_stream.drop 24).take 8)) ∧
      g.y_max = F64.ofBits (le_val ((qnan_stream.drop 32).take 8)) ∧
      g.z_min = F64.ofBits (le_val ((qnan_stream.drop 40).take 8)) ∧
      g.z_max = F64.ofBits (le_val ((qnan_stream.drop 48).take 8)) :=
  ⟨by decide, by decide, by decide,
    ((read_skips_tag uninit_zero qnan_stream retagged_stream (by decide)).2.2.2 (by decide)).2
      (by decide)⟩

theorem written_size_fields (g : Grid) :
    ((write_header g ++ write_cells g 0 g.count).drop 4).take 2 =
      le_bytes 2 (int_to_short g.x_size) ∧
    ((write_header g ++ write_cells g 0 g.count).drop 6).take 2 =
      le_bytes 2 (int_to_short g.y_size) := by
  constructor <;> simp [write_header, le_bytes]

/-- C17: `write_surfer_grid_6bin` stores each size as a `short`: the 16-bit field, read as
a signed integer, is the `int` size wrapped modulo `2 ^ 16` into `[-32768, 32767]`; it
equals the size exactly when the size lies in that range, and for a size `32768 + k` with
`0 <= k < 32768` it is `-32768 + k`. These wrapped values are the sizes that
`read_surfer_grid_6bin` reads back from the written file; it returns no grid exactly when
their product is negative (the allocation fails), and otherwise returns a grid whose
`x_size` and `y_size` are the wrapped values. -/
theorem write_size_wraps (u : Uninit) (g : Grid) :
    ∃ out, write_surfer_grid_6bin true g = some out ∧
      short_to_int (le_val ((out.drop 4).take 2)) = (g.x_size + 2 ^ 15) % 2 ^ 16 - 2 ^ 15 ∧
      short_to_int (le_val ((out.drop 6).take 2)) = (g.y_size + 2 ^ 15) % 2 ^ 16 - 2 ^ 15 ∧
      (short_to_int (le_val ((out.drop 4).take 2)) = g.x_size ↔
        -2 ^ 15 ≤ g.x_size ∧ g.x_size < 2 ^ 15) ∧
      (short_to_int (le_val ((out.drop 6).take 2)) = g.y_size ↔
        -2 ^ 15 ≤ g.y_size ∧ g.y_size < 2 ^ 15) ∧
      (∀ k : Int, 0 ≤ k → k < 32768 → g.x_size = 32768 + k →
        short_to_int (le_val ((out.drop 4).take 2)) = -32768 + k) ∧
      (∀ k : Int, 0 ≤ k → k < 32768 → g.y_size = 32768 + k →
        short_to_int (le_val ((out.drop 6).take 2)) = -32768 + k) ∧
      read_sizes u out =
        ((g.x_size + 2 ^ 15) % 2 ^ 16 - 2 ^ 15, (g.y_size + 2 ^ 15) % 2 ^ 16 - 2 ^ 15) ∧
      (read_surfer_grid_6bin u (some out) = none ↔
        ((g.x_size + 2 ^ 15) % 2 ^ 16 - 2 ^ 15) * ((g.y_size + 2 ^ 15) % 2 ^ 16 - 2 ^ 15) < 0) ∧
      (0 ≤ ((g.x_size + 2 ^ 15) % 2 ^ 16 - 2 ^ 15) * ((g.y_size + 2 ^ 15) % 2 ^ 16 - 2 ^ 15) →
        ∃ g2, read_surfer_grid_6bin u (some out) = some g2 ∧
          g2.x_size = (g.x_size + 2 ^ 15) % 2 ^ 16 - 2 ^ 15 ∧
          g2.y_size = (g.y_size + 2 ^ 15) % 2 ^ 16 - 2 ^ 15 ∧
          (g2.x_size = g.x_size ↔ -2 ^ 15 ≤ g.x_size ∧ g.x_size < 2 ^ 15) ∧
          (g2.y_size = g.y_size ↔ -2 ^ 15 ≤ g.y_size ∧ g.y_size < 2 ^ 15) ∧
          (∀ k : Int, 0 ≤ k → k < 32768 → g.x_size = 32768 + k → g2.x_size = -32768 + k) ∧
          (∀ k : Int, 0 ≤ k → k < 32768 → g.y_size = 32768 + k → g2.y_size = -32768 + k)) := by
  obtain ⟨fx, fy⟩ := written_size_fields g
  have hx : short_to_int (le_val (((write_header g ++ write_cells g 0 g.count).drop 4).take 2)) =
      (g.x_size + 2 ^ 15) % 2 ^ 16 - 2 ^ 15 := by
    rw [fx, le_val_le_bytes, short_wrap]
  have hy : short_to_int (le_val (((write_header g ++ write_cells g 0 g.count).drop 6).take 2)) =
      (g.y_size + 2 ^ 15) % 2 ^ 16 - 2 ^ 15 := by
    rw [fy, le_val_le_bytes, short_wrap]
  have hlen : 56 ≤ (write_header g ++ write_cells g 0 g.count).length := by
    rw [List.length_append, write_header_length]
    omega
  have hs : read_sizes u (write_header g ++ write_cells g 0 g.count) =
      ((g.x_size + 2 ^ 15) % 2 ^ 16 - 2 ^ 15, (g.y_size + 2 ^ 15) % 2 ^ 16 - 2 ^ 15) := by
    rw [read_sizes_of_header u _ (by omega), hx, hy]
  have hout := read_outcome u (write_header g ++ write_cells g 0 g.count)
  rw [hs] at hout
  simp only [] at hout
  refine ⟨write_header g ++ write_cells g 0 g.count, by simp [write_surfer_grid_6bin], hx, hy,
    ?_, ?_, ?_, ?_, hs, hout.1, ?_⟩
  · rw [hx]; omega
  · rw [hy]; omega
  · intro k h0 h1 hk
    rw [hx]; omega
  · intro k h0 h1 hk
    rw [hy]; omega
  · intro hprod
    obtain ⟨g2, hg⟩ := read_returns_grid u (write_header g ++ write_cells g 0 g.count)
      (by rw [hs]; exact hprod)
    obtain ⟨h1, h2, _⟩ := hout.2 g2 hg
    refine ⟨g2, hg, h1, h2, ?_, ?_, ?_, ?_⟩
    · rw [h1]; omega
    · rw [h2]; omega
    · intro k h0 hk1 hk
      rw [h1]; omega
    · intro k h0 hk1 hk
      rw [h2]; omega

theorem wide_grid_wf : wide_grid.wf := by
  unfold Grid.wf wide_grid
  simp only [List.length_replicate]
  decide

theorem square_grid_wf : square_grid.wf := by
  unfold Grid.wf square_grid
  simp only [List.length_replicate]
  decide

/-- The 40000 x 40000 grid is written with both size fields `-25536` and is read back as a
grid with `x_size = y_size = -25536`; the 40000 x 2 grid is written with the size fields
`-25536` and `2`, and reading its file returns no grid. -/
theorem write_size_wraps_witness :
    (square_grid.wf ∧ square_grid.x_size = 32768 + 7232 ∧
      ∃ out, write_surfer_grid_6bin true square_grid = some out ∧
        short_to_int (le_val ((out.drop 4).take 2)) = -32768 + 7232 ∧
        ∃ g2, read_surfer_grid_6bin uninit_zero (some out) = some g2 ∧
          g2.x_size = -32768 + 7232 ∧ g2.y_size = -32768 + 7232) ∧
    (wide_grid.wf ∧ wide_grid.x_size = 32768 + 7232 ∧
      ∃ out, write_surfer_grid_6bin true wide_grid = some out ∧
        short_to_int (le_val ((out.drop 4).take 2)) = -32768 + 7232 ∧
        read_sizes uninit_zero out = (-32768 + 7232, 2) ∧
        read_surfer_grid_6bin uninit_zero (some out) = none) :=
  ⟨⟨square_grid_wf, rfl,
      match write_size_wraps uninit_zero square_grid with
      | ⟨out, h, _, _, _, _, hk, _, _, _, hex⟩ =>
        ⟨out, h, hk 7232 (by decide) (by decide) (by decide),
          match hex (by decide) with
          | ⟨g2, hg, _, _, _, _, kx, ky⟩ =>
            ⟨g2, hg, kx 7232 (by decide) (by decide) (by decide),
              ky 7232 (by decide) (by decide) (by decide)⟩⟩⟩,
    ⟨wide_grid_wf, rfl,
      match write_size_wraps uninit_zero wide_grid with
      | ⟨out, h, _, _, _, _, hk, _, hs, hnone, _⟩ =>
        ⟨out, h, hk 7232 (by decide) (by decide) (by decide), hs, hnone.mpr (by decide)⟩⟩⟩

theorem calculate_z_min_max_step_consistent (g : Grid) (h : step_consistent g) :
    step_consistent (calculate_z_min_max g) := by
  obtain ⟨f1, f2, f3, f4, f5, f6, f7, f8, _, _⟩ := calculate_z_min_max_frame g
  unfold step_consistent
  rw [f1, f2, f3, f4, f5, f6, f7, f8]
  exact h

theorem create_example_grid_step_consistent : step_consistent create_example_grid := by
  unfold create_example_grid
  simp only []
  exact calculate_z_min_max_step_consistent _ ⟨rfl, rfl⟩

theorem read_step_consistent (u : Uninit) (file : Option (List Nat)) (g : Grid)
    (h : read_surfer_grid_6bin u file = some g) : step_consistent g := by
  unfold read_surfer_grid_6bin at h
  cases file with
  | none => exact Option.noConfusion h
  | some content =>
    simp only [] at h
    split at h
    · simp only [Option.some.injEq] at h
      rw [← h]
      exact ⟨rfl, rfl⟩
    · exact Option.noConfusion h

/-- C18: step consistency (`x_step` and `y_step` hold `(max - min) / (size - 1)` computed
on the grid's own bounds and sizes) holds for the grid of `create_example_grid` and for
every grid that `read_surfer_grid_6bin` returns, and a grid that has it keeps it through
`set_xy_value`, `set_grid_x_min`, `set_grid_x_max`, `set_grid_y_min`, `set_grid_y_max` and
`calculate_z_min_max`. The fields hold the computed value bit for bit, so that they compare
`==` to it in C whenever the step is not a NaN. -/
theorem step_consistency (g : Grid) (h : step_consistent g) :
    step_consistent create_example_grid ∧
    (∀ (u : Uninit) (file : Option (List Nat)) (g2 : Grid),
      read_surfer_grid_6bin u file = some g2 → step_consistent g2) ∧
    (∀ (x y : Int) (v : F64), ∃ g2, set_xy_value (some g) x y v = some g2 ∧
      step_consistent g2) ∧
    (∀ b : F64, ∃ g2, set_grid_x_min (some g) b = some g2 ∧ step_consistent g2) ∧
    (∀ b : F64, ∃ g2, set_grid_x_max (some g) b = some g2 ∧ step_consistent g2) ∧
    (∀ b : F64, ∃ g2, set_grid_y_min (some g) b = some g2 ∧ step_consistent g2) ∧
    (∀ b : F64, ∃ g2, set_grid_y_max (some g) b = some g2 ∧ step_consistent g2) ∧
    step_consistent (calculate_z_min_max g) ∧
    (¬g.x_step.isNaN →
      F64.eq g.x_step (F64.div (F64.sub g.x_max g.x_min) (F64.ofInt (g.x_size - 1)))) ∧
    (¬g.y_step.isNaN →
      F64.eq g.y_step (F64.div (F64.sub g.y_max g.y_min) (F64.ofInt (g.y_size - 1)))) := by
  refine ⟨create_example_grid_step_consistent, read_step_consistent, ?_, ?_, ?_, ?_, ?_,
    calculate_z_min_max_step_consistent g h, fun hn => ?_, fun hn => ?_⟩
  · intro x y v
    unfold set_xy_value
    by_cases hb : out_of_bounds g x y
    · simp only [hb, if_true]
      exact ⟨g, rfl, h⟩
    · simp only [hb, if_false]
      exact ⟨_, rfl, h⟩
  · intro b
    exact ⟨_, rfl, rfl, h.2⟩
  · intro b
    exact ⟨_, rfl, rfl, h.2⟩
  · intro b
    exact ⟨_, rfl, h.1, rfl⟩
  · intro b
    exact ⟨_, rfl, h.1, rfl⟩
  · rw [← h.1]
    exact ⟨hn, hn, rfl⟩
  · rw [← h.2]
    exact ⟨hn, hn, rfl⟩

theorem step_consistency_witness :
    step_consistent sample_grid ∧
    ∃ g2, set_grid_x_max (some sample_grid) (F64.ofInt 7) = some g2 ∧ step_consistent g2 :=
  ⟨by decide, (step_consistency sample_grid (by decide)).2.2.2.2.1 (F64.ofInt 7)⟩

theorem calculate_z_min_max_idempotent (g : Grid) :
    calculate_z_min_max (calculate_z_min_max g) = calculate_z_min_max g := by
  by_cases hc : F64.eq (z_scan g).1 DBL_MAX ∨ F64.eq (z_scan g).2 (F64.neg DBL_MAX)
  · have e : calculate_z_min_max g =
        { g with z_min := g.blank_value, z_max := g.blank_value } := by
      unfold calculate_z_min_max
      simp only []
      rw [if_pos hc]
    have key : ∀ a b : F64, calculate_z_min_max { g with z_min := a, z_max := b } =
        { g with z_min := g.blank_value, z_max := g.blank_value } := by
      intro a b
      have hs : z_scan { g with z_min := a, z_max := b } = z_scan g := rfl
      unfold calculate_z_min_max
      simp only [hs]
      rw [if_pos hc]
    rw [e]
    exact key _ _
  · have e : calculate_z_min_max g =
        { g with z_min := (z_scan g).1, z_max := (z_scan g).2 } := by
      unfold calculate_z_min_max
      simp only []
      rw [if_neg hc]
    have key : ∀ a b : F64, calculate_z_min_max { g with z_min := a, z_max := b } =
        { g with z_min := (z_scan g).1, z_max := (z_scan g).2 } := by
      intro a b
      have hs : z_scan { g with z_min := a, z_max := b } = z_scan g := rfl
      unfold calculate_z_min_max
      simp only [hs]
      rw [if_neg hc]
    rw [e]
    exact key _ _

/-- C19: on a well-formed grid whose cells and `blank_value` are not NaNs, after
`calculate_z_min_max` the stored range is ordered, `z_min <= z_max`; the function changes
no field but `z_min` and `z_max`; and running it a second time gives the same grid. -/
theorem calculate_z_min_max_ordered (g : Grid) (hwf : g.wf) (hn : ∀ c ∈ g.data, ¬c.isNaN)
    (hb : ¬g.blank_value.isNaN) :
    F64.le (calculate_z_min_max g).z_min (calculate_z_min_max g).z_max ∧
    ((calculate_z_min_max g).x_min = g.x_min ∧ (calculate_z_min_max g).x_max = g.x_max ∧
      (calculate_z_min_max g).y_min = g.y_min ∧ (calculate_z_min_max g).y_max = g.y_max ∧
      (calculate_z_min_max g).x_size = g.x_size ∧ (calculate_z_min_max g).y_size = g.y_size ∧
      (calculate_z_min_max g).x_step = g.x_step ∧ (calculate_z_min_max g).y_step = g.y_step ∧
      (calculate_z_min_max g).blank_value = g.blank_value ∧
      (calculate_z_min_max g).data = g.data) ∧
    calculate_z_min_max (calculate_z_min_max g) = calculate_z_min_max g := by
  refine ⟨?_, calculate_z_min_max_frame g, calculate_z_min_max_idempotent g⟩
  have hseed1 : ¬GRID_DEFAULT_Z_MIN.isNaN := by decide
  have hseed2 : ¬GRID_DEFAULT_Z_MAX.isNaN := by decide
  obtain ⟨m1, m2, m3, _⟩ := z_scan_min_invariant g.blank_value g.data hn
    (GRID_DEFAULT_Z_MIN, GRID_DEFAULT_Z_MAX) [] hseed1 (by simp) (Or.inl rfl) (le_refl _)
  obtain ⟨n1, n2, n3, _⟩ := z_scan_max_invariant g.blank_value g.data hn
    (GRID_DEFAULT_Z_MIN, GRID_DEFAULT_Z_MAX) [] hseed2 (by simp) (Or.inl rfl) (le_refl _)
  rw [← z_scan_eq_foldl g hwf] at m1 m2 m3 n1 n2 n3
  simp only [List.nil_append] at m2 m3 n2 n3
  unfold calculate_z_min_max
  simp only []
  by_cases hc : F64.eq (z_scan g).1 DBL_MAX ∨ F64.eq (z_scan g).2 (F64.neg DBL_MAX)
  · rw [if_pos hc]
    exact ⟨hb, hb, le_refl _⟩
  · rw [if_neg hc]
    refine ⟨m1, n1, ?_⟩
    rcases n3 with h | h
    · exfalso
      apply hc
      right
      rw [h]
      decide
    · exact m2 _ h.1 h.2

theorem calculate_z_min_max_ordered_witness :
    F64.le (calculate_z_min_max sample_grid).z_min (calculate_z_min_max sample_grid).z_max ∧
    calculate_z_min_max (calculate_z_min_max sample_grid) = calculate_z_min_max sample_grid :=
  match calculate_z_min_max_ordered sample_grid sample_grid_wf (by decide) (by decide) with
  | ⟨h1, _, h3⟩ => ⟨h1, h3⟩

/-- A double that compares `==` to a nonzero non-NaN double has the same bits. -/
theorem F64.eq_bits_of_eq (a b : F64) (h : F64.eq a b) (hb : b.bits % 2 ^ 63 ≠ 0) : a = b := by
  obtain ⟨_, _, hk⟩ := h
  have ha := a.isLt
  have hbl := b.isLt
  apply F64.ext_bits
  unfold F64.key F64.sign at hk
  by_cases h1 : 2 ^ 63 ≤ a.bits <;> by_cases h2 : 2 ^ 63 ≤ b.bits <;>
    simp only [h1, h2, decide_True, decide_False, if_true, Bool.false_eq_true, if_false] at hk <;>
    omega

theorem blank_value_facts :
    GRID_DEFAULT_BLANK_VALUE.isFinite ∧ GRID_DEFAULT_BLANK_VALUE.sign = false ∧
    GRID_DEFAULT_BLANK_VALUE.mag = 170141000918782798866653488190622531584 * 2 ^ 1074 ∧
    GRID_DEFAULT_BLANK_VALUE.narrow.isFinite ∧ GRID_DEFAULT_BLANK_VALUE.narrow.sign = false ∧
    GRID_DEFAULT_BLANK_VALUE.narrow.mag = 170141000918782798866653488190622531584 * 2 ^ 1074 ∧
    GRID_DEFAULT_BLANK_VALUE.narrow.bits = 0x7EFFFFEE ∧
    GRID_DEFAULT_BLANK_VALUE.narrow.widen = GRID_DEFAULT_BLANK_VALUE ∧
    GRID_DEFAULT_BLANK_VALUE.bits % 2 ^ 63 ≠ 0 ∧ ¬GRID_DEFAULT_BLANK_VALUE.isNaN := by
  decide

/-- C20: `GRID_DEFAULT_BLANK_VALUE` is the number
`170141000918782798866653488190622531584 = (2 ^ 24 - 18) * 2 ^ 103`, which is a
single-precision value: narrowing it gives the float `0x7EFFFFEE` of the same value, and
widening that gives it back. Hence, for a well-formed grid with sizes that fit a `short`
whose `blank_value` is the default, every cell equal to `blank_value` is read back from the
written file as a cell equal to the `blank_value` of the grid read. -/
theorem blank_cells_round_trip (u : Uninit) (g : Grid) (hwf : g.wf)
    (hx1 : -2 ^ 15 ≤ g.x_size) (hx2 : g.x_size < 2 ^ 15)
    (hy1 : -2 ^ 15 ≤ g.y_size) (hy2 : g.y_size < 2 ^ 15)
    (hblank : g.blank_value = GRID_DEFAULT_BLANK_VALUE) :
    GRID_DEFAULT_BLANK_VALUE.toRat = 170141000918782798866653488190622531584 ∧
    (170141000918782798866653488190622531584 : ℚ) = (2 ^ 24 - 18) * 2 ^ 103 ∧
    GRID_DEFAULT_BLANK_VALUE.narrow.isFinite ∧
    GRID_DEFAULT_BLANK_VALUE.narrow.toRat = 170141000918782798866653488190622531584 ∧
    GRID_DEFAULT_BLANK_VALUE.narrow.widen = GRID_DEFAULT_BLANK_VALUE ∧
    ∃ g2, read_surfer_grid_6bin u (write_surfer_grid_6bin true g) = some g2 ∧
      g2.blank_value = GRID_DEFAULT_BLANK_VALUE ∧
      ∀ i, i < g.data.length → F64.eq (g.cell i) g.blank_value →
        g2.cell i = g2.blank_value ∧ F64.eq (g2.cell i) g2.blank_value := by
  obtain ⟨_, b2, b3, b4, b5, b6, _, b8, b9, b10⟩ := blank_value_facts
  have hc : (2 : ℚ) ^ 1074 ≠ 0 := pow_ne_zero _ (by norm_num)
  have hlen := hwf.2.2.2.2.2
  have hcount : g.count = g.data.length := by unfold Grid.count; omega
  refine ⟨?_, by norm_num, b4, ?_, b8, _, read_write u g hx1 hx2 hy1 hy2 (by omega), rfl, ?_⟩
  · unfold F64.toRat
    rw [b2, b3]
    simp only [Bool.false_eq_true, if_false, one_mul, Nat.cast_mul, Nat.cast_pow, Nat.cast_ofNat]
    exact mul_div_cancel_right₀ _ hc
  · unfold F32.toRat
    rw [b5, b6]
    simp only [Bool.false_eq_true, if_false, one_mul, Nat.cast_mul, Nat.cast_pow, Nat.cast_ofNat]
    exact mul_div_cancel_right₀ _ hc
  · intro i hi heq
    rw [hblank] at heq
    have hcell : g.cell i = GRID_DEFAULT_BLANK_VALUE := F64.eq_bits_of_eq _ _ heq b9
    have hread := cell_map_range g (fun d => d.narrow.widen) g.count i (by omega)
    have hread2 : ∀ (a b c d e f h k : F64) (m n : Int),
        Grid.cell { x_min := a, x_max := b, y_min := c, y_max := d, x_size := m, y_size := n,
                    x_step := e, y_step := f, z_min := h, z_max := k,
                    blank_value := GRID_DEFAULT_BLANK_VALUE,
                    data := (List.range' 0 g.count).map (fun j => (g.cell j).narrow.widen) } i =
          (g.cell i).narrow.widen := fun _ _ _ _ _ _ _ _ _ _ => hread
    rw [hread2, hcell, b8]
    exact ⟨rfl, b10, b10, rfl⟩

theorem blank_grid_wf : blank_grid.wf := by decide

theorem blank_cells_round_trip_witness :
    F64.eq (blank_grid.cell 1) blank_grid.blank_value ∧
    ∃ g2, read_surfer_grid_6bin uninit_zero (write_surfer_grid_6bin true blank_grid) = some g2 ∧
      g2.blank_value = GRID_DEFAULT_BLANK_VALUE ∧
      ∀ i, i < blank_grid.data.length → F64.eq (blank_grid.cell i) blank_grid.blank_value →
        g2.cell i = g2.blank_value ∧ F64.eq (g2.cell i) g2.blank_value :=
  ⟨by decide, (blank_cells_round_trip uninit_zero blank_grid blank_grid_wf (by decide) (by decide)
    (by decide) (by decide) rfl).2.2.2.2.2⟩

end GridC
